import Mathlib

/-!
# Attiswil/RPS : `ai_studio_code.js`

A shallow embedding of the aircraft spawner of `src/ai_studio_code.js`.

Conventions of the embedding.

* A value returned by `Math.random()` is a rational number (every binary64
  number is one). `getRandomLevel`, `getRandomSpeed` and `parseInt` round as
  binary64 does (`binary64`), and the literals `0.7` and `0.3` are the binary64
  numbers they denote; `generateCallsign` and the index of the radial are
  computed in exact arithmetic (`callsign_numbers_in_binary64` gives the ranges
  of the rounded numbers).
* Coordinates and headings are real numbers: `Math.cos`, `Math.sin` and
  `Math.atan2` are the real functions.
* `Math.random()` and `Date.now()` are oracles: `Env.random k` is the value
  of the `k`-th call, `Env.now k` the reading of the `k`-th call; the state
  counts the calls made so far.
* The document is the list of `<g>` elements created so far (`nodes`) and the
  children of `#atc-map` (`svg`, `none` when the element does not exist); a
  rendering handle is the index of a group in `nodes`.
* The `value` of the number input is its text when that is a valid
  floating-point number of the HTML standard and the empty string otherwise;
  `NaN` is `none`.
-/

namespace RPS

/-! ## Configuration (lines 6-10) -/

def AIRFIELD_CENTER_X : ℝ := 500
def AIRFIELD_CENTER_Y : ℝ := 300
def SPAWN_DISTANCE : ℝ := 400
def AIRCRAFT_SIZE : Int := 10
def LABEL_OFFSET_X : Int := 15

/-! ## JavaScript numbers -/

/-- Rounding a rational to the nearest integer, a tie going to the even one. -/
def roundHalfEven (q : ℚ) : Int :=
  if q - ⌊q⌋ < 1 / 2 then ⌊q⌋
  else if 1 / 2 < q - ⌊q⌋ then ⌊q⌋ + 1
  else if ⌊q⌋ % 2 = 0 then ⌊q⌋ else ⌊q⌋ + 1

/-- The binary64 number nearest to `x`, a tie going to the even significand:
53 significant bits, subnormals below `2^-1022`. Magnitudes beyond the largest
binary64 number are rounded the same way, not sent to infinity. -/
def binary64 (x : ℚ) : ℚ :=
  if x = 0 then 0
  else
    let e := max (Int.log 2 |x|) (-1022)
    (roundHalfEven (x / 2 ^ (e - 52)) : ℚ) * 2 ^ (e - 52)

/-! ## JavaScript string primitives -/

/-- The plain decimal digits of an integer, with `-` in front of a negative
one. -/
def decimalText (n : Int) : String := toString n

/-- The candidate with `k` significant digits for the text of the integer
Number `x` of `nd` digits: of the multiples of `10^(nd-k)` just below and just
above `x`, the one that `binary64` sends to `x`; of two, the closer to `x`, and
on a tie the one with the even digit string. -/
def shortestAt (x nd k : Nat) : Option Nat :=
  let p := 10 ^ (nd - k)
  let v0 := x / p * p
  let v1 := v0 + p
  if binary64 (v0 : ℚ) = x then
    if binary64 (v1 : ℚ) = x then
      if x - v0 < v1 - x then some v0
      else if v1 - x < x - v0 then some v1
      else if x / p % 2 = 0 then some v0 else some v1
    else some v0
  else if binary64 (v1 : ℚ) = x then some v1
  else none

/-- The integer whose digits `Number::toString` prints for the integer Number
`x`: the one with the fewest significant digits that `binary64` sends to
`x`. -/
def shortestValue (x : Nat) : Nat :=
  ((List.range' 1 (Nat.log 10 x + 1)).findSome? (shortestAt x (Nat.log 10 x + 1))).getD x

/-- The layout `Number::toString` gives to the digits of `v`: plain digits up
to 21 of them, otherwise the significant digits, with a point after the first
when there are several, and the exponent. -/
def formatShortest (v : Nat) : String :=
  let ds := Nat.toDigits 10 v
  if ds.length ≤ 21 then String.mk ds
  else
    match (ds.reverse.dropWhile (fun c => c = '0')).reverse with
    | [] => String.mk ds
    | [d] => String.mk [d] ++ "e+" ++ toString (ds.length - 1)
    | d :: rest => String.mk (d :: '.' :: rest) ++ "e+" ++ toString (ds.length - 1)

/-- `String(n)` for an integer Number `n`: its decimal digits up to `2^53` in
magnitude, and beyond that the shortest digits that denote the same Number, in
exponent notation from `1e21` on. -/
def jsString (n : Int) : String :=
  if n.natAbs ≤ 2 ^ 53 then decimalText n
  else (if n < 0 then "-" else "") ++ formatShortest (shortestValue n.natAbs)

/-- `s.padStart(targetLength, padString)`: when `s` is shorter than
`targetLength` and `padString` is not empty, `padString` is repeated and cut to
the missing length and put in front of `s`. -/
def padStart (s : String) (targetLength : Nat) (padString : String) : String :=
  if targetLength ≤ s.length ∨ padString.length = 0 then s
  else
    let fillLen := targetLength - s.length
    String.mk ((List.range fillLen).map
      (fun i => padString.data.getD (i % padString.length) '0')) ++ s

/-- `x.toFixed(0)`: the integer nearest to `x` (the larger one on a tie) in
decimal, with the sign of a negative `x` in front. -/
def toFixed0 (x : ℚ) : String :=
  if x < 0 then "-" ++ toString (⌊-x + 1 / 2⌋).toNat
  else toString (⌊x + 1 / 2⌋).toNat

/-- `arr[i]` for a number `i` that is an integer: `undefined` (here `none`)
outside the array. -/
def jsIndex {α : Type} (arr : List α) (i : Int) : Option α :=
  if 0 ≤ i then arr.get? i.toNat else none

/-- The string a value becomes under `+` with a string: `undefined` becomes
the text `undefined`. -/
def jsStringOfOption : Option String → String
  | some s => s
  | none => "undefined"

/-! ## Data structures (lines 13-45) -/

/-- The `transform` attribute `translate(x, y) rotate(heading)`, kept as its
three numbers. -/
structure Transform where
  tx : ℝ
  ty : ℝ
  rot : ℝ

/-- The `<g>` element `drawAircraft` builds: its attributes, the square dot
and the two text lines of its label group. -/
structure SvgGroup where
  id : String
  cls : String
  transform : Transform
  dotX : Int
  dotY : Int
  dotWidth : Int
  dotHeight : Int
  labelOffset : Int
  callsignText : String
  infoText : String

structure Aircraft where
  id : String
  callsign : String
  x : ℝ
  y : ℝ
  level : Int
  speed : Int
  heading : ℝ
  svgElement : Option Nat

/-- The constructor (lines 17-26); `now` is the reading of `Date.now()` and `r`
the draw of `Math.random()` it makes. -/
def Aircraft.new (now : Int) (r : ℚ) (callsign : String) (x y : ℝ)
    (level speed : Int) (heading : ℝ) : Aircraft :=
  { id := "ac-" ++ jsString now ++ toFixed0 r
    callsign := callsign
    x := x
    y := y
    level := level
    speed := speed
    heading := heading
    svgElement := none }

def Aircraft.getDisplayLevel (a : Aircraft) : String :=
  padStart (jsString a.level) 3 "0"

def Aircraft.getDisplaySpeed (a : Aircraft) : String :=
  padStart (jsString a.speed) 2 "0"

/-! ## Utility functions (lines 49-70) -/

def prefixes : List String :=
  ["UAL", "AAL", "DAL", "SWA", "EZY", "RYR", "BAW", "KLM", "AFR"]

/-- `generateCallsign` (lines 49-53); `r1` is the draw of the suffix, made
first, and `r2` the draw of the prefix index. -/
def generateCallsign (r1 r2 : ℚ) : String :=
  let suffix : Int := ⌊100 + r1 * 900⌋
  jsStringOfOption (jsIndex prefixes ⌊r2 * (prefixes.length : ℚ)⌋) ++ jsString suffix

/-- `getRandomLevel` (lines 55-58) for the draw `r`: the product and the sum
are rounded to binary64. -/
def getRandomLevel (r : ℚ) : Int := ⌊binary64 (100 + binary64 (r * 25))⌋ * 10

/-- `getRandomSpeed` (lines 60-63) for the draw `r`: the product and the sum
are rounded to binary64. -/
def getRandomSpeed (r : ℚ) : Int := ⌊binary64 (25 + binary64 (r * 15))⌋

/-- `Math.atan2(y, x)` over the reals: the angle in `(-π, π]` of the point
`(x, y)`, and `0` at the origin. -/
noncomputable def atan2 (y x : ℝ) : ℝ := Complex.arg ⟨x, y⟩

noncomputable def getAngle (x1 y1 x2 y2 : ℝ) : ℝ :=
  let dx := x2 - x1
  let dy := y2 - y1
  (atan2 dy dx * 180 / Real.pi) + 90

/-! ## Program state -/

/-- A `<path>` of the radials group; only its `d` attribute is kept. -/
structure Radial where
  d : String

/-- Which arm of the placement conditional (line 145) an iteration ran: the
radial arm, with the index it computed at line 147, or the else arm. -/
inductive Branch where
  | radial (index : Int)
  | fallback
  deriving DecidableEq

/-- The two oracles. -/
structure Env where
  random : Nat → ℚ
  now : Nat → Int

/-- The globals `aircrafts` and `radialsData`, the document, the console, the
number of calls made to each oracle, and (a ghost) the arm each loop iteration
took so far. -/
structure State where
  aircrafts : List Aircraft
  radialsData : List Radial
  svg : Option (List Nat)
  nodes : List SvgGroup
  console : List String
  randomCalls : Nat
  nowCalls : Nat
  branches : List Branch

/-- How a call ended: normally, or by a thrown error. -/
inductive Completion where
  | normal
  | threw (msg : String)
  deriving DecidableEq

/-- `Math.random()`. -/
def mathRandom (env : Env) (st : State) : ℚ × State :=
  (env.random st.randomCalls, { st with randomCalls := st.randomCalls + 1 })

/-- `Date.now()`. -/
def dateNow (env : Env) (st : State) : Int × State :=
  (env.now st.nowCalls, { st with nowCalls := st.nowCalls + 1 })

/-! ## Drawing (lines 74-121) -/

/-- The group built at lines 78-117 for an aircraft. -/
def buildGroup (aircraft : Aircraft) : SvgGroup :=
  { id := aircraft.id
    cls := "aircraft"
    transform := { tx := aircraft.x, ty := aircraft.y, rot := aircraft.heading }
    dotX := -AIRCRAFT_SIZE / 2
    dotY := -AIRCRAFT_SIZE / 2
    dotWidth := AIRCRAFT_SIZE
    dotHeight := AIRCRAFT_SIZE
    labelOffset := LABEL_OFFSET_X
    callsignText := aircraft.callsign
    infoText := aircraft.getDisplayLevel ++ " " ++ aircraft.getDisplaySpeed }

/-- `drawAircraft` for the aircraft last pushed on `aircrafts`: the group is
created, then appended to `#atc-map` (line 119, a `TypeError` when
`getElementById` gave `null`), then stored in the aircraft (line 120). -/
def drawAircraft (aircraft : Aircraft) (st : State) : Completion × State :=
  let g := buildGroup aircraft
  let handle := st.nodes.length
  let st1 := { st with nodes := st.nodes ++ [g] }
  match st1.svg with
  | none => (Completion.threw "TypeError: svg is null", st1)
  | some children =>
    (Completion.normal,
      { st1 with
        svg := some (children ++ [handle])
        aircrafts := st1.aircrafts.dropLast ++ [{ aircraft with svgElement := some handle }] })

/-! ## Aircraft generation (lines 125-188) -/

/-- Lines 144-170: the spawn point of one aircraft and the arm taken. -/
noncomputable def placeAircraft (env : Env) (st : State) : (ℝ × ℝ × Branch) × State :=
  if 0 < st.radialsData.length then
    let (r0, st0) := mathRandom env st
    if r0 < binary64 (7 / 10) then
      let (r1, st1) := mathRandom env st0
      let index : Int := ⌊r1 * (st1.radialsData.length : ℚ)⌋
      let (r2, st2) := mathRandom env st1
      let angleFromCenter : ℝ := (r2 : ℝ) * Real.pi * 2
      ((AIRFIELD_CENTER_X + Real.cos angleFromCenter * SPAWN_DISTANCE,
        AIRFIELD_CENTER_Y + Real.sin angleFromCenter * SPAWN_DISTANCE,
        Branch.radial index), st2)
    else
      let (r1, st1) := mathRandom env st0
      let angle : ℝ := (r1 : ℝ) * Real.pi * 2
      ((AIRFIELD_CENTER_X + Real.cos angle * SPAWN_DISTANCE,
        AIRFIELD_CENTER_Y + Real.sin angle * SPAWN_DISTANCE,
        Branch.fallback), st1)
  else
    let (r1, st1) := mathRandom env st
    let angle : ℝ := (r1 : ℝ) * Real.pi * 2
    ((AIRFIELD_CENTER_X + Real.cos angle * SPAWN_DISTANCE,
      AIRFIELD_CENTER_Y + Real.sin angle * SPAWN_DISTANCE,
      Branch.fallback), st1)

/-- Lines 172-178: the heading towards the airfield, deviated for the draws
below the binary64 number `0.3`. -/
noncomputable def initialHeading (env : Env) (x y : ℝ) (st : State) : ℝ × State :=
  let base := getAngle x y AIRFIELD_CENTER_X AIRFIELD_CENTER_Y
  let (p, st1) := mathRandom env st
  if p < binary64 (3 / 10) then
    let (r, st2) := mathRandom env st1
    (base + (((r : ℝ) * 60) - 30), st2)
  else (base, st1)

/-- Lines 180-184: the callsign, level and speed draws and the constructor
call, which reads the clock and draws once more. -/
def newAircraft (env : Env) (x y heading : ℝ) (st : State) : Aircraft × State :=
  let (c1, st1) := mathRandom env st
  let (c2, st2) := mathRandom env st1
  let callsign := generateCallsign c1 c2
  let (l, st3) := mathRandom env st2
  let level := getRandomLevel l
  let (s, st4) := mathRandom env st3
  let speed := getRandomSpeed s
  let (now, st5) := dateNow env st4
  let (r, st6) := mathRandom env st5
  (Aircraft.new now r callsign x y level speed heading, st6)

/-- One iteration of the loop body (lines 142-186). -/
noncomputable def spawnOne (env : Env) (st : State) : Completion × State :=
  let ((x, y, branch), st1) := placeAircraft env st
  let st2 := { st1 with branches := st1.branches ++ [branch] }
  let (heading, st3) := initialHeading env x y st2
  let (aircraft, st4) := newAircraft env x y heading st3
  let st5 := { st4 with aircrafts := st4.aircrafts ++ [aircraft] }
  drawAircraft aircraft st5

/-- The loop of line 141 with `n` iterations left; a thrown error ends it. -/
noncomputable def spawnLoop (env : Env) : Nat → State → Completion × State
  | 0, st => (Completion.normal, st)
  | n + 1, st =>
    match spawnOne env st with
    | (Completion.normal, st1) => spawnLoop env n st1
    | (Completion.threw msg, st1) => (Completion.threw msg, st1)

/-- `spawnAircraft(numAircraft)` for an integer argument: the collection is
emptied, the warning is logged when there are no radials, and the loop runs
while `i < numAircraft`. -/
noncomputable def spawnAircraft (env : Env) (numAircraft : Int) (st : State) :
    Completion × State :=
  let st1 := { st with aircrafts := [] }
  let st2 :=
    if st1.radialsData.length = 0 then
      { st1 with console := st1.console ++
          ["No 'radials' paths found in the SVG. Aircraft will spawn randomly."] }
    else st1
  spawnLoop env numAircraft.toNat st2

/-- The state in which the loop of `spawnAircraft` starts: the collection is
empty and the warning is logged when there are no radials. -/
def spawnStart (st : State) : State :=
  let st1 := { st with aircrafts := [] }
  if st1.radialsData.length = 0 then
    { st1 with console := st1.console ++
        ["No 'radials' paths found in the SVG. Aircraft will spawn randomly."] }
  else st1

/-- The aircraft the constructor call of one loop iteration returns (line 184),
as the iteration computes it from the state it starts in. -/
noncomputable def iterationAircraft (env : Env) (st : State) : Aircraft :=
  let p := placeAircraft env st
  let st2 := { p.2 with branches := p.2.branches ++ [p.1.2.2] }
  let h := initialHeading env p.1.1 p.1.2.1 st2
  (newAircraft env p.1.1 p.1.2.1 h.1 h.2).1

/-! ## Position update (lines 36-44) -/

/-- `aircraft.updatePosition(newX, newY)`: the aircraft after the call and the
groups of the document after it; a handle is truthy, `null` is not. -/
def Aircraft.updatePosition (a : Aircraft) (newX newY : ℝ) (nodes : List SvgGroup) :
    Aircraft × List SvgGroup :=
  let a1 := { a with x := newX, y := newY }
  match a1.svgElement with
  | some handle =>
    (a1, nodes.modify
      (fun g => { g with transform := { tx := a1.x, ty := a1.y, rot := a1.heading } }) handle)
  | none => (a1, nodes)

/-! ## The respawn control (lines 209-223) -/

def isAsciiDigit (c : Char) : Bool := 48 ≤ c.toNat && c.toNat ≤ 57

/-- The text after an optional leading `-`. -/
def dropMinus : List Char → List Char
  | [] => []
  | c :: t => if c = '-' then t else c :: t

/-- The text after an optional leading `-` or `+`, with the sign read. -/
def readSign : List Char → Int × List Char
  | [] => (1, [])
  | c :: t => if c = '-' then (-1, t) else if c = '+' then (1, t) else (1, c :: t)

/-- The exponent part of a valid floating-point number: nothing, or `e` or
`E`, an optional sign and one or more digits. -/
def isValidExponent : List Char → Bool
  | [] => true
  | c :: t =>
    if c = 'e' ∨ c = 'E' then
      !(readSign t).2.isEmpty && (readSign t).2.all isAsciiDigit
    else false

/-- A valid floating-point number of the HTML standard: an optional `-`, then
digits, or `.` and digits, or both, then optionally an exponent. -/
def isValidFloatingPointNumber (text : List Char) : Bool :=
  let unsigned := dropMinus text
  let intPart := unsigned.takeWhile isAsciiDigit
  match unsigned.dropWhile isAsciiDigit with
  | [] => !intPart.isEmpty
  | c :: t =>
    if c = '.' then
      !(t.takeWhile isAsciiDigit).isEmpty && isValidExponent (t.dropWhile isAsciiDigit)
    else !intPart.isEmpty && isValidExponent (c :: t)

/-- The `value` of an `<input type="number">` whose text is `text`: the text
when it is a valid floating-point number, the empty string otherwise (the
value sanitization of the HTML standard). -/
def numberInputValue (text : String) : String :=
  if isValidFloatingPointNumber text.data then text else ""

/-- The white space `parseInt` skips. -/
def isStrWhiteSpace (c : Char) : Bool :=
  let n := c.toNat
  (9 ≤ n && n ≤ 13) || n = 32 || n = 160 || n = 5760 || (8192 ≤ n && n ≤ 8202) ||
    n = 8232 || n = 8233 || n = 8239 || n = 8287 || n = 12288 || n = 65279

/-- The value of a character as a digit of radix `radix`, if it is one. -/
def radixDigit (radix : Nat) (c : Char) : Option Nat :=
  let n := c.toNat
  let v : Option Nat :=
    if 48 ≤ n ∧ n ≤ 57 then some (n - 48)
    else if 97 ≤ n ∧ n ≤ 122 then some (n - 87)
    else if 65 ≤ n ∧ n ≤ 90 then some (n - 55)
    else none
  v.filter (fun d => d < radix)

/-- The radix `parseInt` reads in without a radix argument, and the text after
a `0x` or `0X` that selects 16. -/
def readRadix : List Char → Nat × List Char
  | c0 :: c1 :: t => if c0 = '0' ∧ (c1 = 'x' ∨ c1 = 'X') then (16, t) else (10, c0 :: c1 :: t)
  | cs => (10, cs)

/-- The sign and the integer `parseInt(s)` reads, without a radix argument;
`none` is `NaN`. Leading white space is skipped, a sign is read, `0x` selects
radix 16, and the longest run of digits is read; no digit gives `NaN`. -/
def parseIntParts (s : String) : Option (Int × Nat) :=
  let signed := readSign (s.data.dropWhile isStrWhiteSpace)
  let body := readRadix signed.2
  let digits := (body.2.takeWhile (fun c => (radixDigit body.1 c).isSome)).filterMap
    (radixDigit body.1)
  if digits.isEmpty then none
  else some (signed.1, digits.foldl (fun acc d => acc * body.1 + d) 0)

/-- `parseInt(s)` without a radix argument: the integer read becomes a Number,
the binary64 number nearest to it, with the sign read. -/
def parseInt (s : String) : Option Int :=
  (parseIntParts s).map (fun p => p.1 * ⌊binary64 (p.2 : ℚ)⌋)

/-- The number a list of decimal digit characters denotes. -/
def decimalValue (cs : List Char) : Nat :=
  (cs.map (fun c => c.toNat - 48)).foldl (fun acc d => acc * 10 + d) 0

/-- The argument of `spawnAircraft` at line 213, `parseInt(value || 10)`: an
empty `value` is falsy, so `parseInt(10)` is taken, which is `10`. -/
def respawnCount (value : String) : Option Int :=
  if value = "" then parseInt (jsString 10) else parseInt value

/-- The click handler of the respawn button (lines 211-214) when the number
input shows `text`: `#atc-map` is emptied (a `TypeError` without it), then
`spawnAircraft` runs; with `NaN` the loop condition `i < NaN` fails at once, as
with `0`. -/
noncomputable def onRespawnClick (env : Env) (text : String) (st : State) :
    Completion × State :=
  match st.svg with
  | none => (Completion.threw "TypeError: atc-map is null", st)
  | some _ =>
    let st1 := { st with svg := some [] }
    match respawnCount (numberInputValue text) with
    | some n => spawnAircraft env n st1
    | none => spawnAircraft env 0 st1

/-- Two states that agree on everything an iteration reads or writes except
the radial list and the trace of arms, and that both have a radial. -/
def SameButRadials (s t : State) : Prop :=
  s.aircrafts = t.aircrafts ∧ s.svg = t.svg ∧ s.nodes = t.nodes ∧ s.console = t.console ∧
  s.randomCalls = t.randomCalls ∧ s.nowCalls = t.nowCalls ∧
  0 < s.radialsData.length ∧ 0 < t.radialsData.length

/-- Every aircraft of the collection has a handle to an attached group that
was built from it. -/
def Rendered (st : State) : Prop :=
  ∀ a ∈ st.aircrafts, ∃ h : Nat, ∃ children : List Nat,
    a.svgElement = some h ∧ st.nodes[h]? = some (buildGroup a) ∧
    st.svg = some children ∧ h ∈ children

/-! ## Frame lemmas -/

theorem placeAircraft_frame (env : Env) (st : State) :
    (placeAircraft env st).2.aircrafts = st.aircrafts ∧
    (placeAircraft env st).2.radialsData = st.radialsData ∧
    (placeAircraft env st).2.svg = st.svg ∧
    (placeAircraft env st).2.nodes = st.nodes ∧
    (placeAircraft env st).2.console = st.console ∧
    (placeAircraft env st).2.nowCalls = st.nowCalls ∧
    (placeAircraft env st).2.branches = st.branches := by
  unfold placeAircraft
  simp only [mathRandom]
  split_ifs <;> simp

theorem initialHeading_frame (env : Env) (x y : ℝ) (st : State) :
    (initialHeading env x y st).2.aircrafts = st.aircrafts ∧
    (initialHeading env x y st).2.radialsData = st.radialsData ∧
    (initialHeading env x y st).2.svg = st.svg ∧
    (initialHeading env x y st).2.nodes = st.nodes ∧
    (initialHeading env x y st).2.console = st.console ∧
    (initialHeading env x y st).2.nowCalls = st.nowCalls ∧
    (initialHeading env x y st).2.branches = st.branches := by
  unfold initialHeading
  simp only [mathRandom]
  split_ifs <;> simp

theorem newAircraft_frame (env : Env) (x y h : ℝ) (st : State) :
    (newAircraft env x y h st).2.aircrafts = st.aircrafts ∧
    (newAircraft env x y h st).2.radialsData = st.radialsData ∧
    (newAircraft env x y h st).2.svg = st.svg ∧
    (newAircraft env x y h st).2.nodes = st.nodes ∧
    (newAircraft env x y h st).2.console = st.console ∧
    (newAircraft env x y h st).2.nowCalls = st.nowCalls + 1 ∧
    (newAircraft env x y h st).2.branches = st.branches := by
  simp [newAircraft, mathRandom, dateNow]

theorem newAircraft_id (env : Env) (x y h : ℝ) (st : State) :
    (newAircraft env x y h st).1.id =
      "ac-" ++ jsString (env.now st.nowCalls) ++ toFixed0 (env.random (st.randomCalls + 4)) := by
  simp [newAircraft, mathRandom, dateNow, Aircraft.new]

/-- One iteration on a document that has `#atc-map`: it ends normally, appends
one aircraft that carries a handle, and appends one child to `#atc-map`. -/
theorem spawnOne_of_svg (env : Env) (st : State) (children : List Nat)
    (h : st.svg = some children) :
    ∃ a : Aircraft, ∃ j : Nat,
      (spawnOne env st).1 = Completion.normal ∧
      (spawnOne env st).2.aircrafts = st.aircrafts ++ [a] ∧
      (spawnOne env st).2.svg = some (children ++ [st.nodes.length]) ∧
      (spawnOne env st).2.radialsData = st.radialsData ∧
      (spawnOne env st).2.console = st.console ∧
      (spawnOne env st).2.nowCalls = st.nowCalls + 1 ∧
      (spawnOne env st).2.nodes = st.nodes ++ [buildGroup { a with svgElement := none }] ∧
      a.svgElement = some st.nodes.length ∧
      a.id = "ac-" ++ jsString (env.now st.nowCalls) ++ toFixed0 (env.random j) := by
  unfold spawnOne
  have hp := placeAircraft_frame env st
  generalize placeAircraft env st = p at hp
  obtain ⟨⟨x, y, b⟩, st1⟩ := p
  simp only at hp ⊢
  have hh := initialHeading_frame env x y { st1 with branches := st1.branches ++ [b] }
  generalize initialHeading env x y { st1 with branches := st1.branches ++ [b] } = q at hh
  obtain ⟨hd, st3⟩ := q
  simp only at hh ⊢
  have hn := newAircraft_frame env x y hd st3
  have hid := newAircraft_id env x y hd st3
  have hsv : (newAircraft env x y hd st3).1.svgElement = none := by
    simp [newAircraft, Aircraft.new]
  generalize newAircraft env x y hd st3 = w at hn hid hsv
  obtain ⟨a, st4⟩ := w
  simp only at hn hid hsv ⊢
  obtain ⟨h1, h2, h3, h4, h5, h6, -⟩ := hp
  obtain ⟨i1, i2, i3, i4, i5, i6, -⟩ := hh
  obtain ⟨n1, n2, n3, n4, n5, n6, -⟩ := hn
  refine ⟨{ a with svgElement := some st.nodes.length }, st3.randomCalls + 4, ?_⟩
  have hs : st4.svg = some children := by rw [n3, i3, h3, h]
  simp [drawAircraft, hs, n1, i1, h1, n2, i2, h2, n4, i4, h4, n5, i5, h5, n6, i6, h6, hid]
  cases a
  simp_all

/-- The loop on a document that has `#atc-map`: it ends normally and appends
exactly `n` aircraft, each with an id made of one clock reading of this loop
and one draw. -/
theorem spawnLoop_of_svg (env : Env) (n : Nat) :
    ∀ (st : State) (children : List Nat), st.svg = some children →
      ∃ new : List Aircraft,
        (spawnLoop env n st).1 = Completion.normal ∧
        (spawnLoop env n st).2.aircrafts = st.aircrafts ++ new ∧
        new.length = n ∧
        (spawnLoop env n st).2.svg.isSome = true ∧
        (spawnLoop env n st).2.radialsData = st.radialsData ∧
        (spawnLoop env n st).2.nowCalls = st.nowCalls + n ∧
        ∀ a ∈ new, ∃ k j : Nat, st.nowCalls ≤ k ∧ k < st.nowCalls + n ∧
          a.id = "ac-" ++ jsString (env.now k) ++ toFixed0 (env.random j) := by
  induction n with
  | zero =>
    intro st children h
    exact ⟨[], by simp [spawnLoop, h]⟩
  | succ n ih =>
    intro st children h
    obtain ⟨a, j, h1, h2, h3, h4, -, h6, -, -, h9⟩ := spawnOne_of_svg env st children h
    obtain ⟨new, g1, g2, g3, g4, g5, g6, g7⟩ := ih (spawnOne env st).2 _ h3
    have hstep : spawnLoop env (n + 1) st = spawnLoop env n (spawnOne env st).2 := by
      rw [spawnLoop]
      generalize spawnOne env st = r at h1
      obtain ⟨c, s⟩ := r
      simp only at h1
      subst h1
      rfl
    refine ⟨a :: new, ?_⟩
    rw [hstep]
    refine ⟨g1, ?_, by simp [g3], g4, by rw [g5, h4], by rw [g6, h6]; omega, ?_⟩
    · rw [g2, h2]; simp
    · intro b hb
      rcases List.mem_cons.mp hb with rfl | hb
      · exact ⟨st.nowCalls, j, le_refl _, by omega, h9⟩
      · obtain ⟨k, j', hk1, hk2, hk3⟩ := g7 b hb
        exact ⟨k, j', by omega, by omega, hk3⟩

/-- The state in which the loop of `spawnAircraft` starts. -/
theorem spawnAircraft_eq (env : Env) (numAircraft : Int) (st : State) :
    ∃ st0 : State, st0.aircrafts = [] ∧ st0.svg = st.svg ∧
      st0.radialsData = st.radialsData ∧ st0.nowCalls = st.nowCalls ∧
      spawnAircraft env numAircraft st = spawnLoop env numAircraft.toNat st0 := by
  unfold spawnAircraft
  simp only
  split_ifs
  · refine ⟨_, ?_, ?_, ?_, ?_, rfl⟩ <;> rfl
  · refine ⟨_, ?_, ?_, ?_, ?_, rfl⟩ <;> rfl

/-- On a document that has `#atc-map`, `spawnAircraft` ends normally with
exactly `numAircraft.toNat` aircraft and keeps `#atc-map`. -/
theorem spawnAircraft_of_svg (env : Env) (numAircraft : Int) (st : State)
    (h : st.svg.isSome = true) :
    (spawnAircraft env numAircraft st).1 = Completion.normal ∧
    (spawnAircraft env numAircraft st).2.aircrafts.length = numAircraft.toNat ∧
    (spawnAircraft env numAircraft st).2.svg.isSome = true ∧
    (spawnAircraft env numAircraft st).2.radialsData = st.radialsData ∧
    ∀ a ∈ (spawnAircraft env numAircraft st).2.aircrafts,
      ∃ k j : Nat, st.nowCalls ≤ k ∧ k < st.nowCalls + numAircraft.toNat ∧
        a.id = "ac-" ++ jsString (env.now k) ++ toFixed0 (env.random j) := by
  obtain ⟨st0, e1, e2, e3, e4, e5⟩ := spawnAircraft_eq env numAircraft st
  obtain ⟨children, hc⟩ := Option.isSome_iff_exists.mp h
  obtain ⟨new, g1, g2, g3, g4, g5, g6, g7⟩ :=
    spawnLoop_of_svg env numAircraft.toNat st0 children (by rw [e2, hc])
  rw [e5]
  refine ⟨g1, by rw [g2, e1]; simpa using g3, g4, by rw [g5, e3], ?_⟩
  intro a ha
  rw [g2, e1] at ha
  rw [← e4]
  exact g7 a (by simpa using ha)

/-- One iteration on a document without `#atc-map`: the aircraft is pushed,
then line 119 throws, and the pushed aircraft has no handle. -/
theorem spawnOne_of_no_svg (env : Env) (st : State) (h : st.svg = none) :
    ∃ a : Aircraft,
      (spawnOne env st).1 = Completion.threw "TypeError: svg is null" ∧
      (spawnOne env st).2.aircrafts = st.aircrafts ++ [a] ∧
      a.svgElement = none := by
  unfold spawnOne
  have hp := placeAircraft_frame env st
  generalize placeAircraft env st = p at hp
  obtain ⟨⟨x, y, b⟩, st1⟩ := p
  simp only at hp ⊢
  have hh := initialHeading_frame env x y { st1 with branches := st1.branches ++ [b] }
  generalize initialHeading env x y { st1 with branches := st1.branches ++ [b] } = q at hh
  obtain ⟨hd, st3⟩ := q
  simp only at hh ⊢
  have hn := newAircraft_frame env x y hd st3
  have hsv : (newAircraft env x y hd st3).1.svgElement = none := by
    simp [newAircraft, Aircraft.new]
  generalize newAircraft env x y hd st3 = w at hn hsv
  obtain ⟨a, st4⟩ := w
  simp only at hn hsv ⊢
  have hs : st4.svg = none := by rw [hn.2.2.1, hh.2.2.1, hp.2.2.1, h]
  refine ⟨a, ?_⟩
  simp [drawAircraft, hs, hn.1, hh.1, hp.1, hsv]

/-- Without `#atc-map` a call with `numAircraft >= 1` throws in its first
iteration and leaves one aircraft, without a handle, in `aircrafts`. -/
theorem spawnAircraft_of_no_svg (env : Env) (numAircraft : Int) (st : State)
    (h : st.svg = none) (hN : 1 ≤ numAircraft) :
    (spawnAircraft env numAircraft st).1 = Completion.threw "TypeError: svg is null" ∧
    (spawnAircraft env numAircraft st).2.aircrafts.length = 1 := by
  obtain ⟨st0, e1, e2, -, -, e5⟩ := spawnAircraft_eq env numAircraft st
  obtain ⟨n, hn⟩ : ∃ n : Nat, numAircraft.toNat = n + 1 := ⟨numAircraft.toNat - 1, by omega⟩
  obtain ⟨a, h1, h2, -⟩ := spawnOne_of_no_svg env st0 (by rw [e2, h])
  rw [e5, hn, spawnLoop]
  generalize spawnOne env st0 = r at h1 h2
  obtain ⟨c, s⟩ := r
  simp only at h1 h2
  subst h1
  simp [h2, e1]

/-- For a draw in `[0, 0.5)` the text appended to the id is `0`. -/
theorem toFixed0_low (r : ℚ) (h0 : 0 ≤ r) (h1 : r < 1 / 2) : toFixed0 r = "0" := by
  have hfl : ⌊r + 1 / 2⌋ = 0 := by
    rw [Int.floor_eq_iff]; constructor <;> push_cast <;> linarith
  unfold toFixed0
  rw [if_neg (not_lt.mpr h0), hfl]
  rfl

/-- For a draw in `[0.5, 1)` the text appended to the id is `1`. -/
theorem toFixed0_high (r : ℚ) (h0 : 1 / 2 ≤ r) (h1 : r < 1) : toFixed0 r = "1" := by
  have hfl : ⌊r + 1 / 2⌋ = 1 := by
    rw [Int.floor_eq_iff]; constructor <;> push_cast <;> linarith
  have hneg : ¬ r < 0 := by linarith
  unfold toFixed0
  rw [if_neg hneg, hfl]
  rfl

/-! ## Rounding to binary64 -/

theorem roundHalfEven_intCast (n : Int) : roundHalfEven (n : ℚ) = n := by
  unfold roundHalfEven
  rw [Int.floor_intCast]
  simp

theorem roundHalfEven_le (q : ℚ) (n : Int) (h : q ≤ n) : roundHalfEven q ≤ n := by
  have hf : ⌊q⌋ ≤ n := Int.floor_le_floor h |>.trans (by rw [Int.floor_intCast])
  have hfl := Int.floor_le q
  unfold roundHalfEven
  have hup : ¬ q - ⌊q⌋ < 1 / 2 → ⌊q⌋ + 1 ≤ n := by
    intro hh
    have hlt : (⌊q⌋ : ℚ) < n := by linarith
    have : ⌊q⌋ < n := by exact_mod_cast hlt
    omega
  split_ifs with h1 h2 h3
  · exact hf
  · exact hup h1
  · exact hf
  · exact hup h1

theorem le_roundHalfEven (q : ℚ) (n : Int) (h : (n : ℚ) ≤ q) : n ≤ roundHalfEven q := by
  have hf : n ≤ ⌊q⌋ := Int.le_floor.mpr h
  unfold roundHalfEven
  split_ifs <;> omega

/-- The exponent `binary64` uses for a positive `x` in the binade of `2^e`. -/
theorem log_two_eq (x : ℚ) (e : Int) (h1 : (2 : ℚ) ^ e ≤ x) (h2 : x < (2 : ℚ) ^ (e + 1)) :
    Int.log 2 x = e := by
  have hx : 0 < x := lt_of_lt_of_le (by positivity) h1
  have a1 : e ≤ Int.log 2 x := by
    rw [← Int.zpow_le_iff_le_log (by decide) hx]
    exact_mod_cast h1
  have a2 : Int.log 2 x < e + 1 := by
    rw [← Int.lt_zpow_iff_log_lt (by decide) hx]
    exact_mod_cast h2
  omega

theorem binary64_zero : binary64 0 = 0 := by
  unfold binary64
  simp

/-- The value of `binary64` at a positive `x` whose binade is known. -/
theorem binary64_of_binade (x : ℚ) (e : Int) (h1 : (2 : ℚ) ^ e ≤ x) (h2 : x < (2 : ℚ) ^ (e + 1))
    (he : -1022 ≤ e) :
    binary64 x = (roundHalfEven (x / 2 ^ (e - 52)) : ℚ) * 2 ^ (e - 52) := by
  have hx : 0 < x := lt_of_lt_of_le (by positivity) h1
  unfold binary64
  rw [if_neg hx.ne', abs_of_pos hx, log_two_eq x e h1 h2, max_eq_left he]

/-- A positive `x` below `2^53` is rounded on a grid of step `1 / 2^j`. -/
theorem binary64_grid (x : ℚ) (hx : 0 < x) (hlt : x < 2 ^ 53) :
    ∃ j : Nat, binary64 x = (roundHalfEven (x * 2 ^ j) : ℚ) / 2 ^ j := by
  have hlog : Int.log 2 x < 53 := by
    rw [← Int.lt_zpow_iff_log_lt (by decide) hx]
    exact_mod_cast hlt
  have hc : max (Int.log 2 x) (-1022) ≤ 52 := by omega
  obtain ⟨j, hj⟩ := Int.eq_ofNat_of_zero_le (by omega : 0 ≤ 52 - max (Int.log 2 x) (-1022))
  refine ⟨j, ?_⟩
  unfold binary64
  rw [if_neg hx.ne', abs_of_pos hx]
  simp only
  have e1 : max (Int.log 2 x) (-1022) - 52 = -(j : Int) := by omega
  rw [e1, zpow_neg, zpow_natCast]
  rw [div_inv_eq_mul, div_eq_mul_inv]

/-- Rounding does not cross a natural number: below `2^53`, `x ≤ a` gives
`binary64 x ≤ a` and `a ≤ x` gives `a ≤ binary64 x`. -/
theorem binary64_bounds (x : ℚ) (hx : 0 ≤ x) (hlt : x < 2 ^ 53) (a : Nat) :
    (x ≤ a → binary64 x ≤ a) ∧ ((a : ℚ) ≤ x → (a : ℚ) ≤ binary64 x) := by
  rcases hx.eq_or_lt with h0 | hpos
  · rw [← h0, binary64_zero]
    exact ⟨fun h => h, fun h => h⟩
  · obtain ⟨j, hj⟩ := binary64_grid x hpos hlt
    have hp : (0 : ℚ) < 2 ^ j := by positivity
    rw [hj]
    constructor
    · intro h
      rw [div_le_iff₀ hp]
      have hq : x * 2 ^ j ≤ ((a * 2 ^ j : Nat) : Int) := by
        push_cast
        exact mul_le_mul_of_nonneg_right h hp.le
      have := roundHalfEven_le _ _ hq
      have h2 : (roundHalfEven (x * 2 ^ j) : ℚ) ≤ ((a * 2 ^ j : Nat) : Int) := by
        exact_mod_cast this
      push_cast at h2
      exact h2
    · intro h
      rw [le_div_iff₀ hp]
      have hq : (((a * 2 ^ j : Nat) : Int) : ℚ) ≤ x * 2 ^ j := by
        push_cast
        exact mul_le_mul_of_nonneg_right h hp.le
      have := le_roundHalfEven _ _ hq
      have h2 : (((a * 2 ^ j : Nat) : Int) : ℚ) ≤ (roundHalfEven (x * 2 ^ j) : ℚ) := by
        exact_mod_cast this
      push_cast at h2
      exact h2

/-- A number `n * 2^k` with `n` of at most 53 bits is a binary64 number. -/
theorem binary64_of_significand (n : Nat) (k : Int) (hn : 0 < n) (hn53 : n < 2 ^ 53)
    (hk : -1074 ≤ k) : binary64 ((n : ℚ) * 2 ^ k) = (n : ℚ) * 2 ^ k := by
  have hx : (0 : ℚ) < (n : ℚ) * 2 ^ k := by positivity
  have hlog : Int.log 2 ((n : ℚ) * 2 ^ k) < 53 + k := by
    rw [← Int.lt_zpow_iff_log_lt (by decide) hx]
    have h53 : (n : ℚ) < 2 ^ 53 := by exact_mod_cast hn53
    have : (n : ℚ) * 2 ^ k < 2 ^ (53 : Int) * 2 ^ k := by
      apply mul_lt_mul_of_pos_right _ (by positivity)
      exact_mod_cast h53
    rw [← zpow_add₀ (by norm_num : (2 : ℚ) ≠ 0)] at this
    exact_mod_cast this
  obtain ⟨j, hj⟩ := Int.eq_ofNat_of_zero_le
    (by omega : 0 ≤ k - (max (Int.log 2 ((n : ℚ) * 2 ^ k)) (-1022) - 52))
  unfold binary64
  rw [if_neg hx.ne', abs_of_pos hx]
  simp only
  generalize max (Int.log 2 ((n : ℚ) * 2 ^ k)) (-1022) - 52 = c at hj
  have hk' : k = c + j := by omega
  have hdiv : (n : ℚ) * 2 ^ k / 2 ^ c = ((n * 2 ^ j : Nat) : Int) := by
    rw [hk', zpow_add₀ (by norm_num : (2 : ℚ) ≠ 0), zpow_natCast]
    push_cast
    field_simp
    ring
  rw [hdiv, roundHalfEven_intCast, hk', zpow_add₀ (by norm_num : (2 : ℚ) ≠ 0), zpow_natCast]
  push_cast
  ring

theorem binary64_natCast (n : Nat) (h : n < 2 ^ 53) : binary64 (n : ℚ) = n := by
  rcases Nat.eq_zero_or_pos n with h0 | hpos
  · subst h0; simpa using binary64_zero
  · simpa using binary64_of_significand n 0 hpos h (by decide)

/-! ## Ranges of the generators -/

/-- Bounds of `floor(a + r*b)` for a draw `r` in `[0,1)`. -/
theorem floor_affine_bounds (r : ℚ) (h0 : 0 ≤ r) (h1 : r < 1) (a b : Int) (hb : 0 < b) :
    a ≤ ⌊(a : ℚ) + r * b⌋ ∧ ⌊(a : ℚ) + r * b⌋ ≤ a + b - 1 := by
  have hbq : (0 : ℚ) < b := by exact_mod_cast hb
  constructor
  · rw [Int.le_floor]
    nlinarith
  · have hlt : ⌊(a : ℚ) + r * b⌋ < a + b := by
      rw [Int.floor_lt]
      push_cast
      nlinarith
    omega

/-- The draw `k / b` makes `floor(a + r*b)` equal to `a + k`. -/
theorem floor_affine_hit (a b k : Int) (hb : 0 < b) :
    ⌊(a : ℚ) + ((k : ℚ) / b) * b⌋ = a + k := by
  have hbq : (b : ℚ) ≠ 0 := by exact_mod_cast hb.ne'
  rw [div_mul_cancel₀ _ hbq]
  exact_mod_cast Int.floor_intCast (a + k)

theorem binary64_dyadic (n m : Nat) (hn : n < 2 ^ 53) (hm : m ≤ 1074) :
    binary64 ((n : ℚ) / 2 ^ m) = (n : ℚ) / 2 ^ m := by
  rcases Nat.eq_zero_or_pos n with h0 | hpos
  · subst h0; simpa using binary64_zero
  · have h := binary64_of_significand n (-(m : Int)) hpos hn (by omega)
    rw [zpow_neg, zpow_natCast, ← div_eq_mul_inv] at h
    exact h

theorem roundHalfEven_down (q : ℚ) (f : Int) (h1 : (f : ℚ) ≤ q) (h2 : q - f < 1 / 2) :
    roundHalfEven q = f := by
  have hf : ⌊q⌋ = f := by
    rw [Int.floor_eq_iff]
    exact ⟨h1, by linarith⟩
  unfold roundHalfEven
  rw [hf, if_pos h2]

theorem roundHalfEven_up (q : ℚ) (f : Int) (h1 : (f : ℚ) + 1 / 2 < q) (h2 : q < f + 1) :
    roundHalfEven q = f + 1 := by
  have hf : ⌊q⌋ = f := by
    rw [Int.floor_eq_iff]
    exact ⟨by linarith, h2⟩
  unfold roundHalfEven
  rw [hf, if_neg (by linarith), if_pos (by linarith)]

/-- Bounds of `floor(a + r*b)` computed in binary64, for a draw `r` in `[0,1)`
and small natural `a`, `b`. -/
theorem floor_binary64_bounds (r : ℚ) (h0 : 0 ≤ r) (h1 : r < 1) (a b : Nat)
    (hb : b < 2 ^ 26) (ha : a < 2 ^ 26) :
    (a : Int) ≤ ⌊binary64 ((a : ℚ) + binary64 (r * b))⌋ ∧
    ⌊binary64 ((a : ℚ) + binary64 (r * b))⌋ ≤ a + b := by
  have hbq : (b : ℚ) < 2 ^ 26 := by exact_mod_cast hb
  have haq : (a : ℚ) < 2 ^ 26 := by exact_mod_cast ha
  have hb0 : (0 : ℚ) ≤ b := Nat.cast_nonneg b
  have ha0 : (0 : ℚ) ≤ a := Nat.cast_nonneg a
  have hx0 : 0 ≤ r * b := mul_nonneg h0 hb0
  have hxb : r * b ≤ b := by nlinarith
  have hy := binary64_bounds (r * b) hx0 (by linarith [show (2 : ℚ) ^ 26 ≤ 2 ^ 53 by norm_num])
  have hy0 : 0 ≤ binary64 (r * b) := by simpa using (hy 0).2 (by simpa using hx0)
  have hyb : binary64 (r * b) ≤ b := (hy b).1 hxb
  have hs := binary64_bounds ((a : ℚ) + binary64 (r * b)) (by linarith)
    (by linarith [show (2 : ℚ) ^ 26 + 2 ^ 26 ≤ 2 ^ 53 by norm_num])
  have hsa : (a : ℚ) ≤ binary64 ((a : ℚ) + binary64 (r * b)) := (hs a).2 (by linarith)
  have hsb : binary64 ((a : ℚ) + binary64 (r * b)) ≤ ((a + b : Nat) : ℚ) :=
    (hs (a + b)).1 (by push_cast; linarith)
  constructor
  · rw [Int.le_floor]
    exact_mod_cast hsa
  · have : ⌊binary64 ((a : ℚ) + binary64 (r * b))⌋ ≤ ⌊(((a + b : Nat) : Int) : ℚ)⌋ :=
      Int.floor_le_floor (by exact_mod_cast hsb)
    rw [Int.floor_intCast] at this
    exact_mod_cast this

theorem getRandomLevel_mem (r : ℚ) (h0 : 0 ≤ r) (h1 : r < 1) :
    ∃ k : Int, 0 ≤ k ∧ k ≤ 25 ∧ getRandomLevel r = 1000 + 10 * k := by
  have h := floor_binary64_bounds r h0 h1 100 25 (by norm_num) (by norm_num)
  push_cast at h
  refine ⟨⌊binary64 (100 + binary64 (r * 25))⌋ - 100, by omega, by omega, ?_⟩
  unfold getRandomLevel
  ring

theorem getRandomSpeed_bounds (r : ℚ) (h0 : 0 ≤ r) (h1 : r < 1) :
    25 ≤ getRandomSpeed r ∧ getRandomSpeed r ≤ 40 := by
  have h := floor_binary64_bounds r h0 h1 25 15 (by norm_num) (by norm_num)
  push_cast at h
  unfold getRandomSpeed
  exact ⟨h.1, by omega⟩

/-- `floor(a + r*b)` in binary64 at a draw `j / 2^m`: no rounding occurs. -/
theorem floor_binary64_dyadic (a b j m : Nat) (hm : m ≤ 20) (hb : b < 2 ^ 10) (hj : j < 2 ^ 20)
    (ha : a < 2 ^ 10) :
    ⌊binary64 ((a : ℚ) + binary64 ((j : ℚ) / 2 ^ m * b))⌋ = ((a * 2 ^ m + j * b) / 2 ^ m : Nat) := by
  have hjb : j * b < 2 ^ 53 := by
    calc j * b < 2 ^ 20 * 2 ^ 10 := Nat.mul_lt_mul'' hj hb
      _ ≤ 2 ^ 53 := by norm_num
  have hsum : a * 2 ^ m + j * b < 2 ^ 53 := by
    have h2m : 2 ^ m ≤ 2 ^ 20 := Nat.pow_le_pow_right (by norm_num) hm
    calc a * 2 ^ m + j * b < 2 ^ 10 * 2 ^ 20 + 2 ^ 20 * 2 ^ 10 := by
          apply Nat.add_lt_add_of_le_of_lt
          · exact Nat.mul_le_mul ha.le h2m
          · exact Nat.mul_lt_mul'' hj hb
      _ ≤ 2 ^ 53 := by norm_num
  have e1 : (j : ℚ) / 2 ^ m * b = ((j * b : Nat) : ℚ) / 2 ^ m := by push_cast; ring
  have e2 : (a : ℚ) + ((j * b : Nat) : ℚ) / 2 ^ m = ((a * 2 ^ m + j * b : Nat) : ℚ) / 2 ^ m := by
    push_cast
    field_simp
  rw [e1, binary64_dyadic _ _ hjb (by omega), e2, binary64_dyadic _ _ hsum (by omega)]
  have e3 : ((a * 2 ^ m + j * b : Nat) : ℚ) / 2 ^ m =
      (((a * 2 ^ m + j * b : Nat) : Int) : ℚ) / ((2 ^ m : Nat) : ℚ) := by push_cast; rfl
  rw [e3, Rat.floor_intCast_div_natCast]
  norm_cast

theorem top_draw_is_binary64 : binary64 (1 - 1 / 2 ^ 53) = 1 - 1 / 2 ^ 53 := by
  have h := binary64_dyadic (2 ^ 53 - 1) 53 (by norm_num) (by norm_num)
  have e : (((2 ^ 53 - 1 : Nat)) : ℚ) / 2 ^ 53 = 1 - 1 / 2 ^ 53 := by norm_num
  rw [e] at h
  exact h

theorem roundHalfEven_le_of_lt_half (q : ℚ) (m : Int) (h : q < m + 1 / 2) :
    roundHalfEven q ≤ m := by
  have hfl := Int.floor_le q
  have hf : ⌊q⌋ ≤ m := by
    have : (⌊q⌋ : ℚ) < m + 1 := by linarith
    have : ⌊q⌋ < m + 1 := by exact_mod_cast this
    omega
  have hup : ¬ q - ⌊q⌋ < 1 / 2 → ⌊q⌋ + 1 ≤ m := by
    intro hh
    have hlt : (⌊q⌋ : ℚ) < m := by linarith
    have : ⌊q⌋ < m := by exact_mod_cast hlt
    omega
  unfold roundHalfEven
  split_ifs with h1 h2 h3
  · exact hf
  · exact hup h1
  · exact hf
  · exact hup h1

/-- In the binade of `2^e`, a number less than half a step above the grid point
`m * 2^(e-52)` is rounded to at most that point. -/
theorem binary64_le_of_binade (x : ℚ) (e m : Int) (h1 : (2 : ℚ) ^ e ≤ x)
    (h2 : x < (2 : ℚ) ^ (e + 1)) (he : -1022 ≤ e) (hm : x / 2 ^ (e - 52) < m + 1 / 2) :
    binary64 x ≤ (m : ℚ) * 2 ^ (e - 52) := by
  rw [binary64_of_binade x e h1 h2 he]
  apply mul_le_mul_of_nonneg_right _ (by positivity)
  exact_mod_cast roundHalfEven_le_of_lt_half _ m hm

/-- The largest binary64 number below 1 is `1 - 2^-53`. -/
theorem binary64_below_one (r : ℚ) (h1 : r < 1) (hr : binary64 r = r) :
    r ≤ 1 - 1 / 2 ^ 53 := by
  rcases lt_or_le r (1 / 2) with hlow | hhigh
  · have : (1 / 2 : ℚ) ≤ 1 - 1 / 2 ^ 53 := by norm_num
    linarith
  · have hb := binary64_of_binade r (-1) (by norm_num; linarith) (by norm_num; linarith)
      (by norm_num)
    rw [hr] at hb
    have e1 : ((2 : ℚ) ^ ((-1 : Int) - 52)) = 1 / 2 ^ 53 := by norm_num
    rw [e1] at hb
    generalize roundHalfEven (r / (1 / 2 ^ 53)) = n at hb
    have hn : (n : ℚ) < ((2 ^ 53 : Int) : ℚ) := by
      rw [hb] at h1
      push_cast
      linarith
    have hn2 : n ≤ 2 ^ 53 - 1 := by
      have : n < 2 ^ 53 := by exact_mod_cast hn
      omega
    have hn3 : (n : ℚ) ≤ 2 ^ 53 - 1 := by exact_mod_cast hn2
    rw [hb]
    linarith

/-- The numbers `generateCallsign` computes stay in their ranges when the
arithmetic is rounded to binary64: for every binary64 draw `r` in `[0,1)`,
`floor(100 + r*900)` is in `[100,999]` and `floor(r*9)` is in `[0,8]`. -/
theorem callsign_numbers_in_binary64 (r : ℚ) (h0 : 0 ≤ r) (h1 : r < 1) (hr : binary64 r = r) :
    100 ≤ ⌊binary64 (100 + binary64 (r * 900))⌋ ∧
    ⌊binary64 (100 + binary64 (r * 900))⌋ ≤ 999 ∧
    0 ≤ ⌊binary64 (r * 9)⌋ ∧ ⌊binary64 (r * 9)⌋ ≤ 8 := by
  have htop := binary64_below_one r h1 hr
  have hlow := (floor_binary64_bounds r h0 h1 100 900 (by norm_num) (by norm_num)).1
  push_cast at hlow
  have hx : binary64 (r * 900) ≤ 900 - 1 / 2 ^ 43 := by
    rcases lt_or_le (r * 900) 512 with hs | hl
    · have := (binary64_bounds (r * 900) (by positivity) (by linarith) 512).1 (by push_cast; linarith)
      push_cast at this
      have : (512 : ℚ) ≤ 900 - 1 / 2 ^ 43 := by norm_num
      linarith
    · have := binary64_le_of_binade (r * 900) 9 (900 * 2 ^ 43 - 1) (by norm_num; linarith)
        (by norm_num; linarith) (by norm_num) (by
          norm_num
          linarith)
      norm_num at this ⊢
      linarith
  have hx0 : 0 ≤ binary64 (r * 900) := by
    have := (binary64_bounds (r * 900) (by positivity) (by linarith) 0).2 (by push_cast; positivity)
    simpa using this
  have hy : binary64 (100 + binary64 (r * 900)) ≤ 1000 - 1 / 2 ^ 43 := by
    rcases lt_or_le (100 + binary64 (r * 900)) 512 with hs | hl
    · have := (binary64_bounds (100 + binary64 (r * 900)) (by positivity) (by linarith) 512).1
        (by push_cast; linarith)
      push_cast at this
      have : (512 : ℚ) ≤ 1000 - 1 / 2 ^ 43 := by norm_num
      linarith
    · have := binary64_le_of_binade (100 + binary64 (r * 900)) 9 (1000 * 2 ^ 43 - 1)
        (by norm_num; linarith) (by norm_num; linarith) (by norm_num) (by
          norm_num
          linarith)
      norm_num at this ⊢
      linarith
  have hz : binary64 (r * 9) ≤ 9 - 1 / 2 ^ 49 := by
    rcases lt_or_le (r * 9) 8 with hs | hl
    · have := (binary64_bounds (r * 9) (by positivity) (by linarith) 8).1 (by push_cast; linarith)
      push_cast at this
      have : (8 : ℚ) ≤ 9 - 1 / 2 ^ 49 := by norm_num
      linarith
    · have := binary64_le_of_binade (r * 9) 3 (9 * 2 ^ 49 - 1) (by norm_num; linarith)
        (by norm_num; linarith) (by norm_num) (by
          norm_num
          linarith)
      norm_num at this ⊢
      linarith
  have hz0 : 0 ≤ binary64 (r * 9) := by
    have := (binary64_bounds (r * 9) (by positivity) (by linarith) 0).2 (by push_cast; positivity)
    simpa using this
  refine ⟨hlow, ?_, Int.floor_nonneg.mpr hz0, ?_⟩
  · have : ⌊binary64 (100 + binary64 (r * 900))⌋ < 1000 := by
      rw [Int.floor_lt]
      push_cast
      have : (0 : ℚ) < 1 / 2 ^ 43 := by positivity
      linarith
    omega
  · have : ⌊binary64 (r * 9)⌋ < 9 := by
      rw [Int.floor_lt]
      push_cast
      have : (0 : ℚ) < 1 / 2 ^ 49 := by positivity
      linarith
    omega

/-- The binary64 number the literal `0.3` denotes; it lies below `3/10`. -/
theorem binary64_three_tenths : binary64 (3 / 10) = 5404319552844595 / 2 ^ 54 := by
  rw [binary64_of_binade (3 / 10) (-2) (by norm_num) (by norm_num) (by norm_num),
    roundHalfEven_down _ 5404319552844595 (by norm_num) (by norm_num)]
  norm_num

/-- The binary64 number the literal `0.7` denotes; it lies below `7/10`. -/
theorem binary64_seven_tenths : binary64 (7 / 10) = 3152519739159347 / 2 ^ 52 := by
  rw [binary64_of_binade (7 / 10) (-1) (by norm_num) (by norm_num) (by norm_num),
    roundHalfEven_down _ 6305039478318694 (by norm_num) (by norm_num)]
  norm_num

theorem getRandomLevel_top_draw : getRandomLevel (1 - 1 / 2 ^ 53) = 1250 := by
  have hy : binary64 ((1 - 1 / 2 ^ 53) * 25) = 25 - 1 / 2 ^ 48 := by
    rw [binary64_of_binade _ 4 (by norm_num) (by norm_num) (by norm_num),
      roundHalfEven_down _ (25 * 2 ^ 48 - 1) (by norm_num) (by norm_num)]
    norm_num
  have hs : binary64 (100 + (25 - 1 / 2 ^ 48)) = 125 := by
    rw [binary64_of_binade _ 6 (by norm_num) (by norm_num) (by norm_num),
      roundHalfEven_up _ (125 * 2 ^ 46 - 1) (by norm_num) (by norm_num)]
    norm_num
  unfold getRandomLevel
  rw [hy, hs]
  norm_num

theorem getRandomSpeed_top_draw : getRandomSpeed (1 - 1 / 2 ^ 53) = 40 := by
  have hy : binary64 ((1 - 1 / 2 ^ 53) * 15) = 15 - 1 / 2 ^ 49 := by
    rw [binary64_of_binade _ 3 (by norm_num) (by norm_num) (by norm_num),
      roundHalfEven_down _ (15 * 2 ^ 49 - 1) (by norm_num) (by norm_num)]
    norm_num
  have hs : binary64 (25 + (15 - 1 / 2 ^ 49)) = 40 := by
    rw [binary64_of_binade _ 5 (by norm_num) (by norm_num) (by norm_num),
      roundHalfEven_up _ (40 * 2 ^ 47 - 1) (by norm_num) (by norm_num)]
    norm_num
  unfold getRandomSpeed
  rw [hy, hs]
  norm_num

theorem getRandomLevel_zero : getRandomLevel 0 = 1000 := by
  have h := floor_binary64_dyadic 100 25 0 0 (by norm_num) (by norm_num) (by norm_num)
    (by norm_num)
  unfold getRandomLevel
  norm_num at h ⊢
  rw [h]
  rfl

/-- Draws `j / 32`: binary64 numbers in `[0,1)` at which `getRandomLevel`
rounds nothing. -/
theorem getRandomLevel_dyadic (j : Nat) (hj : j < 32) :
    0 ≤ (j : ℚ) / 2 ^ 5 ∧ (j : ℚ) / 2 ^ 5 < 1 ∧
    binary64 ((j : ℚ) / 2 ^ 5) = (j : ℚ) / 2 ^ 5 ∧
    getRandomLevel ((j : ℚ) / 2 ^ 5) = (((100 * 2 ^ 5 + j * 25) / 2 ^ 5 : Nat) : Int) * 10 := by
  have hjq : (j : ℚ) < 32 := by exact_mod_cast hj
  refine ⟨by positivity, ?_, binary64_dyadic j 5 (by omega) (by norm_num), ?_⟩
  · rw [div_lt_one (by norm_num)]; linarith
  · unfold getRandomLevel
    have h := floor_binary64_dyadic 100 25 j 5 (by norm_num) (by norm_num) (by omega)
      (by norm_num)
    push_cast at h ⊢
    rw [h]

/-- Draws `j / 16`: binary64 numbers in `[0,1)` at which `getRandomSpeed`
rounds nothing. -/
theorem getRandomSpeed_dyadic (j : Nat) (hj : j < 16) :
    0 ≤ (j : ℚ) / 2 ^ 4 ∧ (j : ℚ) / 2 ^ 4 < 1 ∧
    binary64 ((j : ℚ) / 2 ^ 4) = (j : ℚ) / 2 ^ 4 ∧
    getRandomSpeed ((j : ℚ) / 2 ^ 4) = (((25 * 2 ^ 4 + j * 15) / 2 ^ 4 : Nat) : Int) := by
  have hjq : (j : ℚ) < 16 := by exact_mod_cast hj
  refine ⟨by positivity, ?_, binary64_dyadic j 4 (by omega) (by norm_num), ?_⟩
  · rw [div_lt_one (by norm_num)]; linarith
  · unfold getRandomSpeed
    have h := floor_binary64_dyadic 25 15 j 4 (by norm_num) (by norm_num) (by omega)
      (by norm_num)
    push_cast at h ⊢
    rw [h]

/-! ## Decimal text of an integer -/

/-- The decimal digits of `n`, most significant first, as characters; `0` is
the single digit `0`. -/
def decimalChars (n : Nat) : List Char :=
  if n = 0 then ['0'] else ((Nat.digits 10 n).reverse.map Nat.digitChar)

theorem toDigitsCore_eq_decimalChars (fuel : Nat) :
    ∀ (n : Nat) (ds : List Char), n < fuel →
      Nat.toDigitsCore 10 fuel n ds = decimalChars n ++ ds := by
  induction fuel with
  | zero => intro n ds h; omega
  | succ fuel ih =>
    intro n ds h
    rw [Nat.toDigitsCore]
    by_cases hq : n / 10 = 0
    · rw [if_pos hq]
      have hlt : n < 10 := by omega
      have hmod : n % 10 = n := Nat.mod_eq_of_lt hlt
      rw [hmod]
      unfold decimalChars
      by_cases hn : n = 0
      · subst hn; rfl
      · rw [if_neg hn, Nat.digits_of_lt 10 n hn hlt]; rfl
    · rw [if_neg hq]
      have hpos : 0 < n := by
        rcases Nat.eq_zero_or_pos n with hz | hz
        · subst hz; simp at hq
        · exact hz
      have hlt : n / 10 < fuel := by
        have hdiv : n / 10 < n := Nat.div_lt_self hpos (by decide)
        omega
      rw [ih (n / 10) _ hlt]
      unfold decimalChars
      rw [if_neg hq, if_neg (by omega : ¬ n = 0)]
      conv_rhs => rw [Nat.digits_def' (by decide : 1 < 10) hpos]
      simp

/-- `String(n)` of a natural number is its decimal digits. -/
theorem toDigits_eq_decimalChars (n : Nat) : Nat.toDigits 10 n = decimalChars n := by
  unfold Nat.toDigits
  rw [toDigitsCore_eq_decimalChars (n + 1) n [] (by omega)]
  simp

/-- The decimal text of a natural number is its decimal digits. -/
theorem decimalText_ofNat (n : Nat) : decimalText (n : Int) = String.mk (decimalChars n) := by
  show Nat.repr n = _
  unfold Nat.repr
  rw [toDigits_eq_decimalChars]
  rfl

/-- Up to `2^53` in magnitude `String(n)` is the decimal text of `n`. -/
theorem jsString_of_small (n : Int) (h : n.natAbs ≤ 2 ^ 53) : jsString n = decimalText n := by
  unfold jsString
  rw [if_pos h]

/-- `String(n)` of a natural number up to `2^53` is its decimal digits. -/
theorem jsString_ofNat (n : Nat) (h : n ≤ 2 ^ 53) :
    jsString (n : Int) = String.mk (decimalChars n) := by
  rw [jsString_of_small _ (by simpa using h), decimalText_ofNat]

theorem decimalChars_length (n : Nat) (hn : n ≠ 0) :
    (decimalChars n).length = Nat.log 10 n + 1 := by
  unfold decimalChars
  rw [if_neg hn]
  simp [Nat.digits_len 10 n (by decide) hn]

theorem jsString_length_three (n : Int) (h0 : 100 ≤ n) (h1 : n ≤ 999) :
    (jsString n).length = 3 := by
  obtain ⟨m, rfl⟩ := Int.eq_ofNat_of_zero_le (by omega : 0 ≤ n)
  have hm0 : 100 ≤ m := by exact_mod_cast h0
  have hm1 : m ≤ 999 := by exact_mod_cast h1
  rw [jsString_ofNat m (by omega)]
  show (decimalChars m).length = 3
  rw [decimalChars_length m (by omega)]
  have hlog : Nat.log 10 m = 2 := by
    rw [Nat.log_eq_iff (Or.inl (by decide))]
    constructor <;> norm_num <;> omega
  rw [hlog]

/-! ## The angle of two axis directions -/

/-- The angle of a point straight below the origin of the `atan2` plane. -/
theorem atan2_neg_of_zero (d : ℝ) (hd : 0 < d) : atan2 (-d) 0 = -(Real.pi / 2) := by
  unfold atan2
  rw [Complex.arg_eq_neg_pi_div_two_iff]
  exact ⟨rfl, by simpa using hd⟩

theorem atan2_zero_of_pos (d : ℝ) (hd : 0 < d) : atan2 0 d = 0 := by
  unfold atan2
  rw [Complex.arg_eq_zero_iff]
  exact ⟨le_of_lt hd, rfl⟩

/-! ## The loop without radials -/

/-- Without radials the placement runs the else arm. -/
theorem placeAircraft_no_radials (env : Env) (st : State) (h : st.radialsData = []) :
    (placeAircraft env st).1.2.2 = Branch.fallback := by
  unfold placeAircraft
  simp [h]

/-- An iteration records the arm of its placement and nothing else. -/
theorem spawnOne_branches (env : Env) (st : State) :
    (spawnOne env st).2.branches = st.branches ++ [(placeAircraft env st).1.2.2] := by
  unfold spawnOne
  have hp := placeAircraft_frame env st
  generalize placeAircraft env st = p at hp
  obtain ⟨⟨x, y, b⟩, st1⟩ := p
  simp only at hp ⊢
  have hh := initialHeading_frame env x y { st1 with branches := st1.branches ++ [b] }
  generalize initialHeading env x y { st1 with branches := st1.branches ++ [b] } = q at hh
  obtain ⟨hd, st3⟩ := q
  simp only at hh ⊢
  have hn := newAircraft_frame env x y hd st3
  generalize newAircraft env x y hd st3 = w at hn
  obtain ⟨a, st4⟩ := w
  simp only at hn ⊢
  have hb : st4.branches = st.branches ++ [b] := by
    rw [hn.2.2.2.2.2.2, hh.2.2.2.2.2.2, hp.2.2.2.2.2.2]
  unfold drawAircraft
  simp only
  split <;> simp [hb]

/-- The loop without radials on a document that has `#atc-map`: every
iteration runs the else arm, and nothing is written to the console. -/
theorem spawnLoop_no_radials (env : Env) (n : Nat) :
    ∀ (st : State) (children : List Nat), st.svg = some children → st.radialsData = [] →
      (spawnLoop env n st).2.branches = st.branches ++ List.replicate n Branch.fallback ∧
      (spawnLoop env n st).2.console = st.console := by
  induction n with
  | zero =>
    intro st children _ _
    simp [spawnLoop]
  | succ n ih =>
    intro st children h hr
    obtain ⟨a, j, h1, -, h3, h4, h5, -⟩ := spawnOne_of_svg env st children h
    have hb := spawnOne_branches env st
    rw [placeAircraft_no_radials env st hr] at hb
    obtain ⟨g1, g2⟩ := ih (spawnOne env st).2 _ h3 (by rw [h4, hr])
    have hstep : spawnLoop env (n + 1) st = spawnLoop env n (spawnOne env st).2 := by
      rw [spawnLoop]
      generalize spawnOne env st = r at h1
      obtain ⟨c, s⟩ := r
      simp only at h1
      subst h1
      rfl
    rw [hstep, g1, g2, hb, h5]
    simp [List.replicate_succ]

/-! ## Concrete inputs -/

/-- A document with an empty `#atc-map`, no radials and no aircraft. -/
def emptyDocument : State :=
  { aircrafts := []
    radialsData := []
    svg := some []
    nodes := []
    console := []
    randomCalls := 0
    nowCalls := 0
    branches := [] }

/-- Draws `0, 0.1, 0.2, 0.3, 0.4, 0, 0.1, ...` and a clock that stays within
one millisecond. -/
def sameMillisecond : Env :=
  { random := fun k => ((k % 5 : Nat) : ℚ) / 10
    now := fun _ => 1700000000000 }

theorem sameMillisecond_id (k j : Nat) :
    "ac-" ++ jsString (sameMillisecond.now k) ++ toFixed0 (sameMillisecond.random j)
      = "ac-17000000000000" := by
  have hlt : j % 5 < 5 := Nat.mod_lt _ (by decide)
  have hq : ((j % 5 : Nat) : ℚ) < 5 := by exact_mod_cast hlt
  have h0 : (0 : ℚ) ≤ ((j % 5 : Nat) : ℚ) := Nat.cast_nonneg _
  have hz : toFixed0 (sameMillisecond.random j) = "0" := by
    apply toFixed0_low
    · simp only [sameMillisecond]; positivity
    · simp only [sameMillisecond]; linarith
  rw [hz]
  show "ac-" ++ jsString 1700000000000 ++ "0" = "ac-17000000000000"
  decide

/-- Every id of a batch spawned under `sameMillisecond` is the same string. -/
theorem sameMillisecond_ids (n : Int) (st : State) (h : st.svg.isSome = true) :
    (spawnAircraft sameMillisecond n st).2.aircrafts.map Aircraft.id
      = List.replicate n.toNat "ac-17000000000000" := by
  obtain ⟨-, h2, -, -, h5⟩ := spawnAircraft_of_svg sameMillisecond n st h
  rw [List.eq_replicate_iff]
  refine ⟨by simpa using h2, ?_⟩
  intro b hb
  obtain ⟨a, ha, rfl⟩ := List.mem_map.mp hb
  obtain ⟨k, j, -, -, hid⟩ := h5 a ha
  rw [hid]
  exact sameMillisecond_id k j

/-! ## The aircraft of one iteration -/

/-- An iteration appends the aircraft of its constructor call, with or without
a handle, to `aircrafts`. -/
theorem spawnOne_aircrafts (env : Env) (st : State) :
    ∃ o : Option Nat, (spawnOne env st).2.aircrafts =
      st.aircrafts ++ [{ iterationAircraft env st with svgElement := o }] := by
  unfold spawnOne iterationAircraft
  have hp := placeAircraft_frame env st
  generalize placeAircraft env st = p at hp
  obtain ⟨⟨x, y, b⟩, st1⟩ := p
  simp only at hp ⊢
  have hh := initialHeading_frame env x y { st1 with branches := st1.branches ++ [b] }
  generalize initialHeading env x y { st1 with branches := st1.branches ++ [b] } = q at hh
  obtain ⟨hd, st3⟩ := q
  simp only at hh ⊢
  have hn := newAircraft_frame env x y hd st3
  have hsv : (newAircraft env x y hd st3).1.svgElement = none := by
    simp [newAircraft, Aircraft.new]
  generalize newAircraft env x y hd st3 = w at hn hsv
  obtain ⟨a, st4⟩ := w
  simp only at hn hsv ⊢
  have ha : st4.aircrafts = st.aircrafts := by rw [hn.1, hh.1, hp.1]
  unfold drawAircraft
  simp only
  split
  · exact ⟨none, by cases a; simp_all⟩
  · exact ⟨some st4.nodes.length, by simp [ha]⟩

/-- What holds of the aircraft of every iteration, whatever its handle, holds
of every aircraft the loop adds. -/
theorem spawnLoop_forall (env : Env) (P : Aircraft → Prop)
    (hP : ∀ (st : State) (o : Option Nat), P { iterationAircraft env st with svgElement := o })
    (n : Nat) :
    ∀ st : State, ∀ a ∈ (spawnLoop env n st).2.aircrafts, a ∈ st.aircrafts ∨ P a := by
  induction n with
  | zero =>
    intro st a ha
    exact Or.inl (by simpa [spawnLoop] using ha)
  | succ n ih =>
    intro st a ha
    obtain ⟨o, ho⟩ := spawnOne_aircrafts env st
    have hone : ∀ b ∈ (spawnOne env st).2.aircrafts, b ∈ st.aircrafts ∨ P b := by
      intro b hb
      rw [ho] at hb
      rcases List.mem_append.mp hb with hb | hb
      · exact Or.inl hb
      · rw [List.mem_singleton] at hb
        subst hb
        exact Or.inr (hP st o)
    rw [spawnLoop] at ha
    generalize spawnOne env st = r at ha hone
    obtain ⟨c, s⟩ := r
    cases c with
    | normal =>
      simp only at ha hone
      rcases ih s a ha with h | h
      · exact hone a h
      · exact Or.inr h
    | threw msg =>
      simp only at ha hone
      exact hone a ha

/-- What holds of the aircraft of every iteration holds of every aircraft in
`aircrafts` after `spawnAircraft`. -/
theorem spawnAircraft_forall (env : Env) (P : Aircraft → Prop)
    (hP : ∀ (st : State) (o : Option Nat), P { iterationAircraft env st with svgElement := o })
    (numAircraft : Int) (st : State) :
    ∀ a ∈ (spawnAircraft env numAircraft st).2.aircrafts, P a := by
  obtain ⟨st0, e1, -, -, -, e5⟩ := spawnAircraft_eq env numAircraft st
  intro a ha
  rw [e5] at ha
  rcases spawnLoop_forall env P hP numAircraft.toNat st0 a ha with h | h
  · rw [e1] at h; cases h
  · exact h

/-- The spawn point lies on the circle of radius `SPAWN_DISTANCE` around the
airfield centre, in either arm. -/
theorem placeAircraft_on_circle (env : Env) (st : State) :
    ((placeAircraft env st).1.1 - 500) ^ 2 + ((placeAircraft env st).1.2.1 - 300) ^ 2
      = 400 ^ 2 := by
  have key : ∀ t : ℝ, (AIRFIELD_CENTER_X + Real.cos t * SPAWN_DISTANCE - 500) ^ 2 +
      (AIRFIELD_CENTER_Y + Real.sin t * SPAWN_DISTANCE - 300) ^ 2 = 400 ^ 2 := by
    intro t
    unfold AIRFIELD_CENTER_X AIRFIELD_CENTER_Y SPAWN_DISTANCE
    have hcs := Real.cos_sq_add_sin_sq t
    nlinarith
  unfold placeAircraft
  simp only [mathRandom]
  split_ifs <;> exact key _

/-- The constructor call keeps the position and heading it is given. -/
theorem newAircraft_fields (env : Env) (x y h : ℝ) (st : State) :
    (newAircraft env x y h st).1.x = x ∧ (newAircraft env x y h st).1.y = y ∧
    (newAircraft env x y h st).1.heading = h ∧
    (newAircraft env x y h st).1.level = getRandomLevel (env.random (st.randomCalls + 2)) ∧
    (newAircraft env x y h st).1.speed = getRandomSpeed (env.random (st.randomCalls + 3)) ∧
    (newAircraft env x y h st).1.callsign =
      generateCallsign (env.random st.randomCalls) (env.random (st.randomCalls + 1)) := by
  simp [newAircraft, mathRandom, dateNow, Aircraft.new]

theorem iterationAircraft_on_circle (env : Env) (st : State) :
    ((iterationAircraft env st).x - 500) ^ 2 + ((iterationAircraft env st).y - 300) ^ 2
      = 400 ^ 2 := by
  unfold iterationAircraft
  simp only [(newAircraft_fields env _ _ _ _).1, (newAircraft_fields env _ _ _ _).2.1]
  exact placeAircraft_on_circle env st

/-- The heading of the aircraft of an iteration. The draw of line 176 is the
one made right after the placement, `env.random k` with `k` the number of calls
the placement leaves behind: the heading is the angle towards the centre when
that draw is at least the binary64 number `0.3`, and that angle plus
`r*60 - 30` for the next draw `r` otherwise. -/
theorem iterationAircraft_heading (env : Env) (st : State) :
    (binary64 (3 / 10) ≤ env.random (placeAircraft env st).2.randomCalls →
      (iterationAircraft env st).heading =
        getAngle (iterationAircraft env st).x (iterationAircraft env st).y 500 300) ∧
    (env.random (placeAircraft env st).2.randomCalls < binary64 (3 / 10) →
      (iterationAircraft env st).heading =
        getAngle (iterationAircraft env st).x (iterationAircraft env st).y 500 300
          + ((env.random ((placeAircraft env st).2.randomCalls + 1) : ℝ) * 60 - 30)) := by
  unfold iterationAircraft
  simp only [(newAircraft_fields env _ _ _ _).1, (newAircraft_fields env _ _ _ _).2.1,
    (newAircraft_fields env _ _ _ _).2.2.1]
  generalize placeAircraft env st = p
  obtain ⟨⟨x, y, b⟩, st1⟩ := p
  simp only
  unfold initialHeading
  simp only [mathRandom, AIRFIELD_CENTER_X, AIRFIELD_CENTER_Y]
  constructor
  · intro hge
    rw [if_neg (not_lt.mpr hge)]
  · intro hlt
    rw [if_pos hlt]

/-- The loop continues from the state an iteration leaves when it ended
normally, and stops with that state when it threw. -/
theorem spawnLoop_succ (env : Env) (n : Nat) (st : State) :
    ((spawnOne env st).1 = Completion.normal →
      spawnLoop env (n + 1) st = spawnLoop env n (spawnOne env st).2) ∧
    (∀ msg, (spawnOne env st).1 = Completion.threw msg →
      spawnLoop env (n + 1) st = spawnOne env st) := by
  rw [spawnLoop]
  generalize spawnOne env st = r
  obtain ⟨c, s⟩ := r
  constructor
  · intro h
    simp only at h
    subst h
    rfl
  · intro msg h
    simp only at h
    subst h
    rfl

/-- The loop keeps the aircraft it starts with, in place. -/
theorem spawnLoop_prefix (env : Env) (n : Nat) :
    ∀ st : State, ∃ added : List Aircraft,
      (spawnLoop env n st).2.aircrafts = st.aircrafts ++ added := by
  induction n with
  | zero => intro st; exact ⟨[], by simp [spawnLoop]⟩
  | succ n ih =>
    intro st
    obtain ⟨o, ho⟩ := spawnOne_aircrafts env st
    cases hc : (spawnOne env st).1 with
    | normal =>
      rw [(spawnLoop_succ env n st).1 hc]
      obtain ⟨added, h⟩ := ih (spawnOne env st).2
      refine ⟨[{ iterationAircraft env st with svgElement := o }] ++ added, ?_⟩
      rw [h, ho, List.append_assoc]
    | threw msg =>
      rw [(spawnLoop_succ env n st).2 msg hc]
      exact ⟨_, ho⟩

/-- The aircraft the loop puts at position `i` after the ones it started with
is the aircraft of the iteration that starts in the state `i` iterations
leave. -/
theorem spawnLoop_getElem (env : Env) (n : Nat) :
    ∀ (st : State) (i : Nat) (a : Aircraft),
      (spawnLoop env n st).2.aircrafts[st.aircrafts.length + i]? = some a →
      ∃ o : Option Nat,
        a = { iterationAircraft env (spawnLoop env i st).2 with svgElement := o } := by
  induction n with
  | zero =>
    intro st i a ha
    simp only [spawnLoop] at ha
    rw [List.getElem?_eq_none (by omega)] at ha
    cases ha
  | succ n ih =>
    intro st i a ha
    obtain ⟨o, ho⟩ := spawnOne_aircrafts env st
    cases hc : (spawnOne env st).1 with
    | normal =>
      rw [(spawnLoop_succ env n st).1 hc] at ha
      cases i with
      | zero =>
        obtain ⟨added, h⟩ := spawnLoop_prefix env n (spawnOne env st).2
        rw [h, ho, List.append_assoc, Nat.add_zero,
          List.getElem?_append_right (le_refl _)] at ha
        simp only [Nat.sub_self, List.singleton_append, List.getElem?_cons_zero,
          Option.some.injEq] at ha
        exact ⟨o, ha.symm⟩
      | succ j =>
        have hlen : (spawnOne env st).2.aircrafts.length = st.aircrafts.length + 1 := by
          rw [ho]; simp
        have ha' : (spawnLoop env n (spawnOne env st).2).2.aircrafts[
            (spawnOne env st).2.aircrafts.length + j]? = some a := by
          rw [hlen]
          rw [show st.aircrafts.length + 1 + j = st.aircrafts.length + (j + 1) by omega]
          exact ha
        obtain ⟨o', h'⟩ := ih (spawnOne env st).2 j a ha'
        exact ⟨o', by rw [(spawnLoop_succ env j st).1 hc]; exact h'⟩
    | threw msg =>
      rw [(spawnLoop_succ env n st).2 msg hc, ho] at ha
      cases i with
      | zero =>
        rw [Nat.add_zero, List.getElem?_append_right (le_refl _)] at ha
        simp only [Nat.sub_self, List.getElem?_cons_zero, Option.some.injEq] at ha
        exact ⟨o, ha.symm⟩
      | succ j =>
        rw [List.getElem?_eq_none (by simp)] at ha
        cases ha

theorem spawnAircraft_eq_spawnLoop (env : Env) (numAircraft : Int) (st : State) :
    spawnAircraft env numAircraft st = spawnLoop env numAircraft.toNat (spawnStart st) := rfl

/-- The aircraft at position `i` of the collection after `spawnAircraft`. -/
theorem spawnAircraft_getElem (env : Env) (numAircraft : Int) (st : State) (i : Nat)
    (a : Aircraft) (ha : (spawnAircraft env numAircraft st).2.aircrafts[i]? = some a) :
    ∃ o : Option Nat,
      a = { iterationAircraft env (spawnLoop env i (spawnStart st)).2 with svgElement := o } := by
  rw [spawnAircraft_eq_spawnLoop] at ha
  have h0 : (spawnStart st).aircrafts = [] := by
    unfold spawnStart
    simp only
    split_ifs <;> rfl
  apply spawnLoop_getElem env numAircraft.toNat (spawnStart st) i a
  rw [h0]
  simpa using ha

/-! ## The angle convention -/

/-- The point `(x, y)` in polar form with the angle `atan2 y x`. -/
theorem atan2_polar (y x : ℝ) :
    Real.sqrt (x ^ 2 + y ^ 2) * Real.cos (atan2 y x) = x ∧
    Real.sqrt (x ^ 2 + y ^ 2) * Real.sin (atan2 y x) = y := by
  have h := Complex.abs_mul_cos_add_sin_mul_I (⟨x, y⟩ : ℂ)
  have habs : Complex.abs (⟨x, y⟩ : ℂ) = Real.sqrt (x ^ 2 + y ^ 2) := by
    rw [Complex.abs_apply, Complex.normSq_mk]
    congr 1
    ring
  rw [habs] at h
  have hre := congrArg Complex.re h
  have him := congrArg Complex.im h
  unfold atan2
  constructor
  · simpa [Complex.cos_ofReal_re, Complex.sin_ofReal_re, Complex.cos_ofReal_im,
      Complex.sin_ofReal_im] using hre
  · simpa [Complex.cos_ofReal_re, Complex.sin_ofReal_re, Complex.cos_ofReal_im,
      Complex.sin_ofReal_im] using him

/-- The angle of a point given in polar form. -/
theorem atan2_of_polar (L t : ℝ) (hL : 0 < L) (h1 : -Real.pi < t) (h2 : t ≤ Real.pi) :
    atan2 (L * Real.sin t) (L * Real.cos t) = t := by
  unfold atan2
  have h := Complex.arg_mul_cos_add_sin_mul_I hL (Set.mem_Ioc.mpr ⟨h1, h2⟩)
  have e : (⟨L * Real.cos t, L * Real.sin t⟩ : ℂ) =
      (L : ℂ) * (Complex.cos (t : ℂ) + Complex.sin (t : ℂ) * Complex.I) := by
    apply Complex.ext <;>
      simp [Complex.cos_ofReal_re, Complex.sin_ofReal_re, Complex.cos_ofReal_im,
        Complex.sin_ofReal_im]
  rw [e]
  exact h

theorem atan2_range (y x : ℝ) : -Real.pi < atan2 y x ∧ atan2 y x ≤ Real.pi :=
  ⟨Complex.neg_pi_lt_arg _, Complex.arg_le_pi _⟩

theorem atan2_zero_zero : atan2 0 0 = 0 := by
  unfold atan2
  exact Complex.arg_zero

theorem getAngle_radians (x1 y1 x2 y2 : ℝ) :
    getAngle x1 y1 x2 y2 * Real.pi / 180 = atan2 (y2 - y1) (x2 - x1) + Real.pi / 2 := by
  unfold getAngle
  have hpi : Real.pi ≠ 0 := Real.pi_ne_zero
  field_simp
  ring

theorem atan2_neg_ten_neg_ten : atan2 (-10) (-10) = -(3 * Real.pi / 4) := by
  have hpi := Real.pi_pos
  have h := atan2_of_polar (10 * Real.sqrt 2) (-(3 * Real.pi / 4)) (by positivity)
    (by linarith) (by linarith)
  have hs : Real.sqrt 2 * Real.sqrt 2 = 2 := Real.mul_self_sqrt (by norm_num)
  have hc : Real.cos (-(3 * Real.pi / 4)) = -(Real.sqrt 2 / 2) := by
    rw [Real.cos_neg, show 3 * Real.pi / 4 = Real.pi - Real.pi / 4 by ring, Real.cos_pi_sub,
      Real.cos_pi_div_four]
  have hsn : Real.sin (-(3 * Real.pi / 4)) = -(Real.sqrt 2 / 2) := by
    rw [Real.sin_neg, show 3 * Real.pi / 4 = Real.pi - Real.pi / 4 by ring, Real.sin_pi_sub,
      Real.sin_pi_div_four]
  rw [hc, hsn] at h
  have e : 10 * Real.sqrt 2 * -(Real.sqrt 2 / 2) = -10 := by nlinarith
  rw [e] at h
  exact h

/-! ## Rendering handles -/

theorem buildGroup_svgElement (a : Aircraft) (o : Option Nat) :
    buildGroup { a with svgElement := o } = buildGroup a := rfl

theorem spawnOne_rendered (env : Env) (st : State) (children : List Nat)
    (h : st.svg = some children) (hr : Rendered st) : Rendered (spawnOne env st).2 := by
  obtain ⟨a, j, -, h2, h3, -, -, -, h7, h8, -⟩ := spawnOne_of_svg env st children h
  intro b hb
  rw [h2] at hb
  rcases List.mem_append.mp hb with hb | hb
  · obtain ⟨k, ch, e1, e2, e3, e4⟩ := hr b hb
    have hch : ch = children := by rw [h] at e3; exact (Option.some.inj e3).symm
    subst hch
    refine ⟨k, ch ++ [st.nodes.length], e1, ?_, h3, List.mem_append_left _ e4⟩
    have hk : k < st.nodes.length := by
      by_contra hge
      rw [List.getElem?_eq_none (by omega)] at e2
      cases e2
    rw [h7, List.getElem?_append_left hk]
    exact e2
  · rw [List.mem_singleton] at hb
    subst hb
    refine ⟨st.nodes.length, children ++ [st.nodes.length], h8, ?_, h3, by simp⟩
    rw [h7, buildGroup_svgElement]
    simp

theorem spawnLoop_rendered (env : Env) (n : Nat) :
    ∀ (st : State) (children : List Nat), st.svg = some children → Rendered st →
      Rendered (spawnLoop env n st).2 := by
  induction n with
  | zero =>
    intro st children _ hr
    simpa [spawnLoop] using hr
  | succ n ih =>
    intro st children h hr
    obtain ⟨a, j, h1, -, h3, -⟩ := spawnOne_of_svg env st children h
    have hone := spawnOne_rendered env st children h hr
    have hstep : spawnLoop env (n + 1) st = spawnLoop env n (spawnOne env st).2 := by
      rw [spawnLoop]
      generalize spawnOne env st = r at h1
      obtain ⟨c, s⟩ := r
      simp only at h1
      subst h1
      rfl
    rw [hstep]
    exact ih _ _ h3 hone

/-! ## Independence of the radial list -/

theorem placeAircraft_sameButRadials (env : Env) (s t : State) (h : SameButRadials s t) :
    (placeAircraft env s).1.1 = (placeAircraft env t).1.1 ∧
    (placeAircraft env s).1.2.1 = (placeAircraft env t).1.2.1 ∧
    SameButRadials (placeAircraft env s).2 (placeAircraft env t).2 := by
  obtain ⟨h1, h2, h3, h4, h5, h6, h7, h8⟩ := h
  unfold placeAircraft SameButRadials
  simp only [mathRandom, if_pos h7, if_pos h8, h5]
  split_ifs <;> simp [h1, h2, h3, h4, h5, h6, h7, h8]

theorem initialHeading_sameButRadials (env : Env) (x y : ℝ) (s t : State)
    (h : SameButRadials s t) :
    (initialHeading env x y s).1 = (initialHeading env x y t).1 ∧
    SameButRadials (initialHeading env x y s).2 (initialHeading env x y t).2 := by
  obtain ⟨h1, h2, h3, h4, h5, h6, h7, h8⟩ := h
  unfold initialHeading SameButRadials
  simp only [mathRandom, h5]
  split_ifs <;> simp [h1, h2, h3, h4, h5, h6, h7, h8]

theorem newAircraft_sameButRadials (env : Env) (x y hd : ℝ) (s t : State)
    (h : SameButRadials s t) :
    (newAircraft env x y hd s).1 = (newAircraft env x y hd t).1 ∧
    SameButRadials (newAircraft env x y hd s).2 (newAircraft env x y hd t).2 := by
  obtain ⟨h1, h2, h3, h4, h5, h6, h7, h8⟩ := h
  unfold newAircraft SameButRadials
  simp [mathRandom, dateNow, h1, h2, h3, h4, h5, h6, h7, h8]

theorem drawAircraft_sameButRadials (a : Aircraft) (s t : State) (h : SameButRadials s t) :
    (drawAircraft a s).1 = (drawAircraft a t).1 ∧
    SameButRadials (drawAircraft a s).2 (drawAircraft a t).2 := by
  obtain ⟨h1, h2, h3, h4, h5, h6, h7, h8⟩ := h
  unfold drawAircraft SameButRadials
  simp only [h2, h3]
  cases t.svg <;> simp [h1, h2, h3, h4, h5, h6, h7, h8]

theorem spawnOne_sameButRadials (env : Env) (s t : State) (h : SameButRadials s t) :
    (spawnOne env s).1 = (spawnOne env t).1 ∧
    SameButRadials (spawnOne env s).2 (spawnOne env t).2 := by
  unfold spawnOne
  obtain ⟨p1, p2, p3⟩ := placeAircraft_sameButRadials env s t h
  generalize placeAircraft env s = ps at p1 p2 p3
  generalize placeAircraft env t = pt at p1 p2 p3
  obtain ⟨⟨x, y, b⟩, s1⟩ := ps
  obtain ⟨⟨x', y', b'⟩, t1⟩ := pt
  simp only at p1 p2 p3 ⊢
  subst p1 p2
  have p3' : SameButRadials { s1 with branches := s1.branches ++ [b] }
      { t1 with branches := t1.branches ++ [b'] } := p3
  obtain ⟨q1, q2⟩ := initialHeading_sameButRadials env x y _ _ p3'
  generalize initialHeading env x y { s1 with branches := s1.branches ++ [b] } = qs at q1 q2
  generalize initialHeading env x y { t1 with branches := t1.branches ++ [b'] } = qt at q1 q2
  obtain ⟨hd, s3⟩ := qs
  obtain ⟨hd', t3⟩ := qt
  simp only at q1 q2 ⊢
  subst q1
  obtain ⟨n1, n2⟩ := newAircraft_sameButRadials env x y hd s3 t3 q2
  generalize newAircraft env x y hd s3 = ws at n1 n2
  generalize newAircraft env x y hd t3 = wt at n1 n2
  obtain ⟨a, s4⟩ := ws
  obtain ⟨a', t4⟩ := wt
  simp only at n1 n2 ⊢
  subst n1
  apply drawAircraft_sameButRadials
  obtain ⟨h1, h2, h3, h4, h5, h6, h7, h8⟩ := n2
  exact ⟨by simp [h1], h2, h3, h4, h5, h6, h7, h8⟩

theorem spawnLoop_sameButRadials (env : Env) (n : Nat) :
    ∀ s t : State, SameButRadials s t →
      (spawnLoop env n s).1 = (spawnLoop env n t).1 ∧
      SameButRadials (spawnLoop env n s).2 (spawnLoop env n t).2 := by
  induction n with
  | zero =>
    intro s t h
    exact ⟨rfl, h⟩
  | succ n ih =>
    intro s t h
    obtain ⟨h1, h2⟩ := spawnOne_sameButRadials env s t h
    rw [spawnLoop, spawnLoop]
    generalize spawnOne env s = rs at h1 h2
    generalize spawnOne env t = rt at h1 h2
    obtain ⟨c, s1⟩ := rs
    obtain ⟨c', t1⟩ := rt
    simp only at h1 h2
    subst h1
    cases c with
    | normal => exact ih s1 t1 h2
    | threw msg => exact ⟨rfl, h2⟩

/-! ## Reading decimal text back -/

theorem digitChar_toNat : ∀ d : Nat, d < 10 → (Nat.digitChar d).toNat = 48 + d := by
  decide

theorem decimalChars_all_digits (n : Nat) : ∀ c ∈ decimalChars n, isAsciiDigit c = true := by
  intro c hc
  unfold decimalChars at hc
  split_ifs at hc with h0
  · rw [List.mem_singleton] at hc
    subst hc
    decide
  · obtain ⟨d, hd, rfl⟩ := List.mem_map.mp hc
    have hlt : d < 10 := Nat.digits_lt_base (by decide) (List.mem_reverse.mp hd)
    have ht := digitChar_toNat d hlt
    unfold isAsciiDigit
    rw [ht]
    simp
    omega

theorem decimalChars_ne_nil (n : Nat) : decimalChars n ≠ [] := by
  unfold decimalChars
  split_ifs with h0
  · simp
  · simp [Nat.digits_ne_nil_iff_ne_zero.mpr h0]

theorem decimalValue_zeros_append (k : Nat) (cs : List Char) :
    decimalValue (List.replicate k '0' ++ cs) = decimalValue cs := by
  induction k with
  | zero => simp
  | succ k ih =>
    rw [List.replicate_succ, List.cons_append]
    unfold decimalValue at ih ⊢
    rw [List.map_cons, List.foldl_cons]
    exact ih

theorem foldl_digits_reverse (l : List Nat) :
    l.reverse.foldl (fun acc d => acc * 10 + d) 0 = Nat.ofDigits 10 l := by
  rw [List.foldl_reverse, Nat.ofDigits_eq_foldr]
  induction l with
  | nil => rfl
  | cons d t ih =>
    simp only [List.foldr_cons, ih]
    push_cast
    ring

theorem decimalValue_decimalChars (n : Nat) : decimalValue (decimalChars n) = n := by
  unfold decimalChars
  split_ifs with h0
  · subst h0; rfl
  · unfold decimalValue
    rw [List.map_map]
    have hmap : (Nat.digits 10 n).reverse.map ((fun c : Char => c.toNat - 48) ∘ Nat.digitChar)
        = (Nat.digits 10 n).reverse := by
      conv_rhs => rw [← List.map_id (Nat.digits 10 n).reverse]
      apply List.map_congr_left
      intro d hd
      have hlt : d < 10 := Nat.digits_lt_base (by decide) (List.mem_reverse.mp hd)
      simp only [Function.comp, digitChar_toNat d hlt, id]
      omega
    rw [hmap, foldl_digits_reverse, Nat.ofDigits_digits]

theorem isStrWhiteSpace_of_digit (c : Char) (h : isAsciiDigit c = true) :
    isStrWhiteSpace c = false := by
  unfold isAsciiDigit at h
  unfold isStrWhiteSpace
  simp only [Bool.and_eq_true, decide_eq_true_eq] at h
  simp
  omega

theorem ne_of_digit (c d : Char) (h : isAsciiDigit c = true) (hd : isAsciiDigit d = false) :
    c ≠ d := by
  intro hcd
  subst hcd
  rw [h] at hd
  cases hd

theorem radixDigit_of_digit (c : Char) (h : isAsciiDigit c = true) :
    radixDigit 10 c = some (c.toNat - 48) := by
  unfold isAsciiDigit at h
  simp only [Bool.and_eq_true, decide_eq_true_eq] at h
  unfold radixDigit
  simp only [if_pos h]
  simp [Option.filter]
  omega

theorem readSign_of_digit (c : Char) (t : List Char) (h : isAsciiDigit c = true) :
    readSign (c :: t) = (1, c :: t) := by
  simp only [readSign]
  rw [if_neg (ne_of_digit c '-' h (by decide)), if_neg (ne_of_digit c '+' h (by decide))]

theorem readRadix_of_digits (cs : List Char) (h : ∀ c ∈ cs, isAsciiDigit c = true) :
    readRadix cs = (10, cs) := by
  match cs with
  | [] => rfl
  | [_] => rfl
  | c0 :: c1 :: t =>
    have h1 : isAsciiDigit c1 = true := h c1 (by simp)
    simp only [readRadix]
    rw [if_neg]
    rintro ⟨-, hx | hx⟩
    · exact ne_of_digit c1 'x' h1 (by decide) hx
    · exact ne_of_digit c1 'X' h1 (by decide) hx

/-- The digits `parseInt` reads from a text made of decimal digits only. -/
theorem parseInt_digits_body (cs : List Char) (h : ∀ c ∈ cs, isAsciiDigit c = true) :
    (cs.takeWhile (fun c => (radixDigit 10 c).isSome)).filterMap (radixDigit 10)
      = cs.map (fun c => c.toNat - 48) := by
  induction cs with
  | nil => rfl
  | cons c t ih =>
    have hc := radixDigit_of_digit c (h c (by simp))
    rw [List.takeWhile_cons, hc]
    simp only [Option.isSome_some, if_true, List.filterMap_cons, hc, List.map_cons]
    rw [ih (fun d hd => h d (List.mem_cons_of_mem _ hd))]

/-- The sign and the integer `parseInt` reads from a non-empty text of decimal
digits, leading zeros included. -/
theorem parseIntParts_of_digits (cs : List Char) (hne : cs ≠ [])
    (h : ∀ c ∈ cs, isAsciiDigit c = true) :
    parseIntParts (String.mk cs) = some (1, decimalValue cs) := by
  obtain ⟨c, t, rfl⟩ := List.exists_cons_of_ne_nil hne
  have hc : isAsciiDigit c = true := h c (by simp)
  have e1 : (String.mk (c :: t)).data.dropWhile isStrWhiteSpace = c :: t := by
    simp [List.dropWhile_cons, isStrWhiteSpace_of_digit c hc]
  unfold parseIntParts
  simp only [e1, readSign_of_digit c t hc, readRadix_of_digits (c :: t) h,
    parseInt_digits_body (c :: t) h]
  simp [decimalValue]

/-- The sign and the integer `parseInt` reads from `-` followed by decimal
digits. -/
theorem parseIntParts_of_minus_digits (cs : List Char) (hne : cs ≠ [])
    (h : ∀ c ∈ cs, isAsciiDigit c = true) :
    parseIntParts (String.mk ('-' :: cs)) = some (-1, decimalValue cs) := by
  have hw : isStrWhiteSpace '-' = false := by decide
  have e1 : (String.mk ('-' :: cs)).data.dropWhile isStrWhiteSpace = '-' :: cs := by
    simp [List.dropWhile_cons, hw]
  have hs : readSign ('-' :: cs) = (-1, cs) := by simp [readSign]
  unfold parseIntParts
  simp only [e1, hs, readRadix_of_digits cs h, parseInt_digits_body cs h]
  obtain ⟨c, t, rfl⟩ := List.exists_cons_of_ne_nil hne
  simp [decimalValue]

/-- Every natural number up to `2^53` is a binary64 number. -/
theorem binary64_natCast_le (m : Nat) (h : m ≤ 2 ^ 53) : binary64 (m : ℚ) = m := by
  rcases Nat.lt_or_eq_of_le h with hlt | heq
  · exact binary64_natCast m hlt
  · have h1 := binary64_of_significand 1 53 (by decide) (by norm_num) (by decide)
    subst heq
    norm_num at h1 ⊢
    exact h1

/-- `parseInt` returns the integer read itself when it is at most `2^53`. -/
theorem parseInt_of_parts (s : String) (sign : Int) (m : Nat)
    (h : parseIntParts s = some (sign, m)) (hm : m ≤ 2 ^ 53) :
    parseInt s = some (sign * m) := by
  unfold parseInt
  rw [h, Option.map_some', binary64_natCast_le m hm, Int.floor_natCast]

/-- `parseInt` of the decimal text of an integer up to `2^53` in magnitude is
that integer. -/
theorem parseInt_decimalText (n : Int) (h : n.natAbs ≤ 2 ^ 53) :
    parseInt (decimalText n) = some n := by
  cases n with
  | ofNat m =>
    have hm : m ≤ 2 ^ 53 := by simpa using h
    rw [show (Int.ofNat m) = (m : Int) from rfl, decimalText_ofNat,
      parseInt_of_parts _ 1 (decimalValue (decimalChars m))
        (parseIntParts_of_digits _ (decimalChars_ne_nil m) (decimalChars_all_digits m))
        (by rw [decimalValue_decimalChars]; exact hm),
      decimalValue_decimalChars]
    simp
  | negSucc m =>
    have hm : m + 1 ≤ 2 ^ 53 := by simpa using h
    have hs : decimalText (Int.negSucc m) = String.mk ('-' :: decimalChars (m + 1)) := by
      have h2 : Nat.repr (m + 1) = String.mk (decimalChars (m + 1)) := decimalText_ofNat (m + 1)
      show "-" ++ Nat.repr (m + 1) = _
      rw [h2]
      rfl
    rw [hs, parseInt_of_parts _ (-1) (decimalValue (decimalChars (m + 1)))
        (parseIntParts_of_minus_digits _ (decimalChars_ne_nil _) (decimalChars_all_digits _))
        (by rw [decimalValue_decimalChars]; exact hm),
      decimalValue_decimalChars, Int.negSucc_eq]
    push_cast
    ring_nf

/-- Padding with `0`: the missing length in zeros, then the text. -/
theorem padStart_zero (s : String) (k : Nat) :
    padStart s k "0" = String.mk (List.replicate (k - s.length) '0' ++ s.data) := by
  unfold padStart
  split_ifs with h
  · rcases h with h | h
    · rw [Nat.sub_eq_zero_of_le h]
      rfl
    · exact absurd h (by decide)
  · have hmap : (List.range (k - s.length)).map
        (fun i => "0".data.getD (i % "0".length) '0') = List.replicate (k - s.length) '0' := by
      rw [List.eq_replicate_iff]
      refine ⟨by simp, ?_⟩
      intro b hb
      obtain ⟨i, -, rfl⟩ := List.mem_map.mp hb
      have : i % "0".length = 0 := Nat.mod_one i
      rw [this]
      rfl
    simp only [hmap]
    rfl

/-! ## The text of a large Number -/

/-- Powers of ten up to `10^22` are binary64 numbers. -/
theorem binary64_pow_ten (m : Nat) (hm : m ≤ 22) : binary64 ((10 : ℚ) ^ m) = 10 ^ m := by
  have h5 : 5 ^ m < 2 ^ 53 := by
    calc 5 ^ m ≤ 5 ^ 22 := Nat.pow_le_pow_right (by norm_num) hm
      _ < 2 ^ 53 := by norm_num
  have e : (10 : ℚ) ^ m = ((5 ^ m : Nat) : ℚ) * 2 ^ (m : Int) := by
    push_cast
    rw [zpow_natCast, ← mul_pow]
    norm_num
  rw [e]
  exact binary64_of_significand (5 ^ m) m (by positivity) h5 (by omega)

/-- A candidate that is kept is sent to `x` by `binary64` and is the multiple
of `10^(nd-k)` just below `x` or the next one. -/
theorem shortestAt_spec (x nd k v : Nat) (h : shortestAt x nd k = some v) :
    binary64 (v : ℚ) = x ∧
    (v = x / 10 ^ (nd - k) * 10 ^ (nd - k) ∨
      v = x / 10 ^ (nd - k) * 10 ^ (nd - k) + 10 ^ (nd - k)) := by
  unfold shortestAt at h
  simp only at h
  split_ifs at h with h0 h1 h2 h3 h4 h5 <;>
    simp only [Option.some.injEq, reduceCtorEq] at h <;>
    subst h <;>
    first
    | exact ⟨h0, Or.inl rfl⟩
    | exact ⟨h1, Or.inr rfl⟩
    | exact ⟨h5, Or.inr rfl⟩

/-- The digits printed for an integer Number `x`: a number that `binary64`
sends to `x`, between the powers of ten around `x`. -/
theorem shortestValue_spec (x : Nat) (hx : binary64 (x : ℚ) = x) (hpos : 0 < x) :
    binary64 (shortestValue x : ℚ) = x ∧
    10 ^ Nat.log 10 x ≤ shortestValue x ∧ shortestValue x ≤ 10 ^ (Nat.log 10 x + 1) := by
  have hlo : 10 ^ Nat.log 10 x ≤ x := Nat.pow_log_le_self 10 hpos.ne'
  have hhi : x < 10 ^ (Nat.log 10 x + 1) := Nat.lt_pow_succ_log_self (by norm_num) x
  unfold shortestValue
  cases hfind : (List.range' 1 (Nat.log 10 x + 1)).findSome?
      (shortestAt x (Nat.log 10 x + 1)) with
  | none => exact ⟨hx, hlo, hhi.le⟩
  | some v =>
    obtain ⟨k, hk, hv⟩ := List.exists_of_findSome?_eq_some hfind
    rw [List.mem_range'_1] at hk
    obtain ⟨hb, hcand⟩ := shortestAt_spec x _ k v hv
    refine ⟨hb, ?_⟩
    simp only [Option.getD_some]
    generalize hL : Nat.log 10 x = L at hlo hhi hk hcand
    obtain ⟨j, hj⟩ : ∃ j, L = (L + 1 - k) + j := ⟨k - 1, by omega⟩
    generalize hp : 10 ^ (L + 1 - k) = p at hcand
    have hppos : 0 < p := by rw [← hp]; positivity
    have hlow : 10 ^ L = 10 ^ j * p := by rw [← hp, ← pow_add, add_comm, ← hj]
    have hupp : 10 ^ (L + 1) = 10 ^ (j + 1) * p := by
      rw [pow_succ, hlow, pow_succ]; ring
    have h1 : 10 ^ j ≤ x / p := by
      rw [Nat.le_div_iff_mul_le hppos, ← hlow]
      exact hlo
    have h2 : x / p < 10 ^ (j + 1) := by
      rw [Nat.div_lt_iff_lt_mul hppos, ← hupp]
      exact hhi
    have hv0lo : 10 ^ L ≤ x / p * p := by
      rw [hlow]
      exact Nat.mul_le_mul_right p h1
    have hv1hi : x / p * p + p ≤ 10 ^ (L + 1) := by
      rw [hupp]
      calc x / p * p + p = (x / p + 1) * p := by ring
        _ ≤ 10 ^ (j + 1) * p := Nat.mul_le_mul_right p h2
    rcases hcand with rfl | rfl
    · exact ⟨hv0lo, by omega⟩
    · exact ⟨by omega, hv1hi⟩

/-- `String(n)` of a non-negative integer Number below `10^21`: the decimal
digits of a number that `binary64` sends to `n`, as many digits as `n` has. -/
theorem jsString_of_number (n : Nat) (hn : binary64 (n : ℚ) = n) (hlt : n < 10 ^ 21) :
    ∃ v : Nat, jsString (n : Int) = String.mk (decimalChars v) ∧
      binary64 (v : ℚ) = n ∧
      (decimalChars v).length = (if n = 0 then 1 else (Nat.digits 10 n).length) := by
  by_cases hsmall : n ≤ 2 ^ 53
  · refine ⟨n, jsString_ofNat n hsmall, hn, ?_⟩
    unfold decimalChars
    split_ifs <;> simp
  · have hpos : 0 < n := by
      have : 2 ^ 53 < n := not_le.mp hsmall
      omega
    obtain ⟨hb, hlo, hhi⟩ := shortestValue_spec n hn hpos
    have hL : Nat.log 10 n + 1 ≤ 21 := by
      have := Nat.log_lt_of_lt_pow hpos.ne' hlt
      omega
    have hne : shortestValue n ≠ 10 ^ (Nat.log 10 n + 1) := by
      intro he
      rw [he] at hb
      have hp := binary64_pow_ten (Nat.log 10 n + 1) (by omega)
      push_cast at hb
      rw [hp] at hb
      have hhi' : n < 10 ^ (Nat.log 10 n + 1) := Nat.lt_pow_succ_log_self (by norm_num) n
      have : ((10 ^ (Nat.log 10 n + 1) : Nat) : ℚ) = (n : ℚ) := by push_cast; exact hb
      have := Nat.cast_injective this
      omega
    have hvlt : shortestValue n < 10 ^ (Nat.log 10 n + 1) := lt_of_le_of_ne hhi hne
    have hvpos : shortestValue n ≠ 0 := by
      have : 0 < 10 ^ Nat.log 10 n := by positivity
      omega
    have hlogv : Nat.log 10 (shortestValue n) = Nat.log 10 n :=
      Nat.log_eq_of_pow_le_of_lt_pow hlo hvlt
    have hlen : (decimalChars (shortestValue n)).length = Nat.log 10 n + 1 := by
      rw [decimalChars_length _ hvpos, hlogv]
    refine ⟨shortestValue n, ?_, hb, ?_⟩
    · unfold jsString
      rw [if_neg (by simpa using hsmall)]
      have hnn : ¬ ((n : Int) < 0) := by omega
      rw [if_neg hnn]
      unfold formatShortest
      simp only [Int.natAbs_ofNat, toDigits_eq_decimalChars]
      rw [if_pos (by omega)]
      rfl
    · rw [hlen, if_neg hpos.ne', Nat.digits_len 10 n (by norm_num) hpos.ne']

/-- The digits printed when the candidate with one significant digit is
kept. -/
theorem shortestValue_of_first (x v : Nat)
    (h : shortestAt x (Nat.log 10 x + 1) 1 = some v) : shortestValue x = v := by
  unfold shortestValue
  rw [List.range'_succ, List.findSome?_cons, h]
  rfl

/-- `String(1e21)` is `1e+21`. -/
theorem jsString_ten_pow_21 : jsString (10 ^ 21) = "1e+21" := by
  have hx := binary64_pow_ten 21 (by norm_num)
  have hlog : Nat.log 10 (10 ^ 21) = 21 := Nat.log_pow (by norm_num) 21
  have hat : shortestAt (10 ^ 21) 22 1 = some (10 ^ 21) := by
    unfold shortestAt
    have hdiv : 10 ^ 21 / 10 ^ (22 - 1) * 10 ^ (22 - 1) = 10 ^ 21 := by norm_num
    simp only [hdiv]
    have h0 : binary64 (((10 ^ 21 : Nat)) : ℚ) = ((10 ^ 21 : Nat) : ℚ) := by
      push_cast
      exact hx
    rw [if_pos h0]
    have hcloser : 10 ^ 21 - 10 ^ 21 < 10 ^ 21 + 10 ^ (22 - 1) - 10 ^ 21 := by norm_num
    by_cases h1 : binary64 (((10 ^ 21 + 10 ^ (22 - 1) : Nat)) : ℚ) = ((10 ^ 21 : Nat) : ℚ)
    · rw [if_pos h1, if_pos hcloser]
    · rw [if_neg h1]
  have hv : shortestValue (10 ^ 21) = 10 ^ 21 := by
    apply shortestValue_of_first
    rw [hlog]
    exact hat
  unfold jsString
  have hbig : ¬ ((10 ^ 21 : Int).natAbs ≤ 2 ^ 53) := by decide
  rw [if_neg hbig]
  have hab : (10 ^ 21 : Int).natAbs = 10 ^ 21 := by decide
  rw [hab, hv]
  decide

/-! ## The number input -/

theorem takeWhile_digits (cs : List Char) (h : ∀ c ∈ cs, isAsciiDigit c = true) :
    cs.takeWhile isAsciiDigit = cs ∧ cs.dropWhile isAsciiDigit = [] := by
  induction cs with
  | nil => exact ⟨rfl, rfl⟩
  | cons c t ih =>
    have hc := h c (by simp)
    obtain ⟨i1, i2⟩ := ih (fun d hd => h d (List.mem_cons_of_mem _ hd))
    rw [List.takeWhile_cons, List.dropWhile_cons, hc]
    simp [i1, i2]

theorem isValidFloatingPointNumber_of_digits (cs : List Char) (hne : cs ≠ [])
    (h : ∀ c ∈ cs, isAsciiDigit c = true) :
    isValidFloatingPointNumber cs = true ∧ isValidFloatingPointNumber ('-' :: cs) = true := by
  obtain ⟨c, t, rfl⟩ := List.exists_cons_of_ne_nil hne
  have hc : isAsciiDigit c = true := h c (by simp)
  have e1 : dropMinus (c :: t) = c :: t := by
    simp only [dropMinus]
    rw [if_neg (ne_of_digit c '-' hc (by decide))]
  have e2 : dropMinus ('-' :: c :: t) = c :: t := by simp [dropMinus]
  obtain ⟨t1, t2⟩ := takeWhile_digits (c :: t) h
  unfold isValidFloatingPointNumber
  simp only [e1, e2, t1, t2]
  simp

/-- The decimal text of every integer is a valid floating-point number and is
not empty: the number input reports it unchanged. -/
theorem numberInputValue_decimalText (n : Int) :
    numberInputValue (decimalText n) = decimalText n ∧ decimalText n ≠ "" := by
  have hform : ∃ cs : List Char, cs ≠ [] ∧ (∀ c ∈ cs, isAsciiDigit c = true) ∧
      (decimalText n = String.mk cs ∨ decimalText n = String.mk ('-' :: cs)) := by
    cases n with
    | ofNat m =>
      exact ⟨decimalChars m, decimalChars_ne_nil m, decimalChars_all_digits m,
        Or.inl (decimalText_ofNat m)⟩
    | negSucc m =>
      refine ⟨decimalChars (m + 1), decimalChars_ne_nil _, decimalChars_all_digits _, Or.inr ?_⟩
      have h1 : Nat.repr (m + 1) = String.mk (decimalChars (m + 1)) := decimalText_ofNat (m + 1)
      show "-" ++ Nat.repr (m + 1) = _
      rw [h1]
      rfl
  obtain ⟨cs, hne, hd, hs⟩ := hform
  obtain ⟨v1, v2⟩ := isValidFloatingPointNumber_of_digits cs hne hd
  unfold numberInputValue
  rcases hs with hs | hs
  · rw [hs]
    refine ⟨by simp [v1], ?_⟩
    intro he
    exact hne (congrArg String.data he)
  · rw [hs]
    refine ⟨by simp [v2], ?_⟩
    intro he
    have := congrArg String.data he
    simp at this

/-- The count the handler passes for the decimal text of an integer up to
`2^53` in magnitude. -/
theorem respawnCount_decimalText (n : Int) (h : n.natAbs ≤ 2 ^ 53) :
    respawnCount (numberInputValue (decimalText n)) = some n := by
  obtain ⟨h1, h2⟩ := numberInputValue_decimalText n
  rw [h1]
  unfold respawnCount
  rw [if_neg h2]
  exact parseInt_decimalText n h

/-- `parseInt(10)`, the count for an empty value. -/
theorem respawnCount_empty : respawnCount "" = some 10 := by
  have hp : parseIntParts (jsString 10) = some (1, 10) := by decide
  unfold respawnCount
  rw [if_pos rfl, parseInt_of_parts _ 1 10 hp (by norm_num)]
  rfl

/-- The count the handler passes for a text that is not a valid number. -/
theorem respawnCount_of_invalid (text : String)
    (h : isValidFloatingPointNumber text.data = false) :
    respawnCount (numberInputValue text) = some 10 := by
  unfold numberInputValue
  rw [h]
  simp only [Bool.false_eq_true, if_false]
  exact respawnCount_empty

/-- A click on a document that has `#atc-map` spawns as many aircraft as the
count the handler computed. -/
theorem onRespawnClick_length (env : Env) (text : String) (st : State) (n : Int)
    (hsvg : st.svg.isSome = true) (hn : respawnCount (numberInputValue text) = some n) :
    (onRespawnClick env text st).1 = Completion.normal ∧
    (onRespawnClick env text st).2.aircrafts.length = n.toNat := by
  obtain ⟨children, hc⟩ := Option.isSome_iff_exists.mp hsvg
  unfold onRespawnClick
  simp only [hc, hn]
  have h := spawnAircraft_of_svg env n { st with svg := some [] } rfl
  exact ⟨h.1, h.2.1⟩

theorem getRandomLevel_above_comment (r : ℚ) (h0 : 0 ≤ r) (h1 : r < 1) :
    350 < getRandomLevel r := by
  obtain ⟨k, hk0, -, hk⟩ := getRandomLevel_mem r h0 h1
  rw [hk]
  omega

theorem sameMillisecond_random (k : Nat) :
    0 ≤ sameMillisecond.random k ∧ sameMillisecond.random k < 1 := by
  have hlt : k % 5 < 5 := Nat.mod_lt _ (by decide)
  have hq : ((k % 5 : Nat) : ℚ) < 5 := by exact_mod_cast hlt
  have h0 : (0 : ℚ) ≤ ((k % 5 : Nat) : ℚ) := Nat.cast_nonneg _
  simp only [sameMillisecond]
  constructor
  · positivity
  · linarith

/-! ## Claims -/

/-- C1. On a document that has the display surface, for every prior content
of `aircrafts`, every `N` in `[1,50]`, every radial list and every sequence of
draws, `spawnAircraft(N)` ends normally with exactly `N` aircraft in
`aircrafts`; the outcome is the one obtained from an empty prior collection
(nothing of the prior content is kept) and every id in the collection is built
from a clock reading made during this call; after `spawnAircraft(5)` then
`spawnAircraft(3)` exactly 3 aircraft are active. -/
theorem spawnAircraft_replaces_collection (env : Env) (st : State) (prior : List Aircraft)
    (N : Int) (hlo : 1 ≤ N) (hhi : N ≤ 50) (hsvg : st.svg.isSome = true) :
    (spawnAircraft env N { st with aircrafts := prior }).1 = Completion.normal ∧
    ((spawnAircraft env N { st with aircrafts := prior }).2.aircrafts.length : Int) = N ∧
    spawnAircraft env N { st with aircrafts := prior } =
      spawnAircraft env N { st with aircrafts := [] } ∧
    (∀ a ∈ (spawnAircraft env N { st with aircrafts := prior }).2.aircrafts,
      ∃ k j : Nat, st.nowCalls ≤ k ∧ k < st.nowCalls + N.toNat ∧
        a.id = "ac-" ++ jsString (env.now k) ++ toFixed0 (env.random j)) ∧
    (spawnAircraft env 3 (spawnAircraft env 5 { st with aircrafts := prior }).2).2.aircrafts.length
      = 3 := by
  have h1 := spawnAircraft_of_svg env N { st with aircrafts := prior } hsvg
  have h5 := spawnAircraft_of_svg env 5 { st with aircrafts := prior } hsvg
  have h3 := spawnAircraft_of_svg env 3 (spawnAircraft env 5 { st with aircrafts := prior }).2
    h5.2.2.1
  refine ⟨h1.1, ?_, rfl, h1.2.2.2.2, ?_⟩
  · rw [h1.2.1]; omega
  · rw [h3.2.1]; rfl

theorem spawnAircraft_replaces_collection_witness :
    (1 : Int) ≤ 7 ∧ (7 : Int) ≤ 50 ∧ emptyDocument.svg.isSome = true ∧
    ((spawnAircraft sameMillisecond 7
        { emptyDocument with aircrafts := [] }).2.aircrafts.length : Int) = 7 :=
  ⟨by decide, by decide, rfl,
    (spawnAircraft_replaces_collection sameMillisecond emptyDocument [] 7
      (by decide) (by decide) rfl).2.1⟩

/-- C2 (failing input). With no radials, a clock that returns the same
millisecond to both constructor calls and draws below `0.5`,
`spawnAircraft(2)` gives both aircraft the id `ac-17000000000000`: the ids of
the batch are not pairwise distinct. -/
theorem spawnAircraft_batch_ids_collide :
    (spawnAircraft sameMillisecond 2 emptyDocument).2.aircrafts.map Aircraft.id
      = ["ac-17000000000000", "ac-17000000000000"] ∧
    ¬ ((spawnAircraft sameMillisecond 2 emptyDocument).2.aircrafts.map Aircraft.id).Nodup := by
  have h := sameMillisecond_ids 2 emptyDocument rfl
  rw [h]
  decide

/-- Whatever the draws in `[0,1)`, when the clock reads the same millisecond
`T` throughout, every id of a batch is `ac-T0` or `ac-T1`, so a batch of three
or more aircraft never has pairwise distinct ids. -/
theorem spawnAircraft_ids_not_nodup_of_constant_clock (env : Env) (st : State) (N : Int)
    (T : Int) (hsvg : st.svg.isSome = true) (hN : 3 ≤ N) (hnow : ∀ k, env.now k = T)
    (hr : ∀ k, 0 ≤ env.random k ∧ env.random k < 1) :
    ¬ ((spawnAircraft env N st).2.aircrafts.map Aircraft.id).Nodup := by
  obtain ⟨-, h2, -, -, h5⟩ := spawnAircraft_of_svg env N st hsvg
  intro hnd
  have hsub : (spawnAircraft env N st).2.aircrafts.map Aircraft.id ⊆
      ["ac-" ++ jsString T ++ "0", "ac-" ++ jsString T ++ "1"] := by
    intro b hb
    obtain ⟨a, ha, rfl⟩ := List.mem_map.mp hb
    obtain ⟨k, j, -, -, hid⟩ := h5 a ha
    rw [hid, hnow k]
    rcases lt_or_le (env.random j) (1 / 2) with hlt | hge
    · rw [toFixed0_low _ (hr j).1 hlt]; simp
    · rw [toFixed0_high _ hge (hr j).2]; simp
  have hle := (List.subperm_of_subset hnd hsub).length_le
  rw [List.length_map, h2] at hle
  simp only [List.length_cons, List.length_nil] at hle
  omega

/-- C3 (failing input). Under a clock that does not advance (a non-decreasing
one) and draws below `0.5`, after `spawnAircraft(5)` then `spawnAircraft(3)`
the three active aircraft carry the id `ac-17000000000000`, which all five
aircraft of the first batch carried. -/
theorem spawnAircraft_second_batch_reuses_ids :
    (spawnAircraft sameMillisecond 5 emptyDocument).2.aircrafts.map Aircraft.id
      = List.replicate 5 "ac-17000000000000" ∧
    (spawnAircraft sameMillisecond 3
        (spawnAircraft sameMillisecond 5 emptyDocument).2).2.aircrafts.map Aircraft.id
      = List.replicate 3 "ac-17000000000000" ∧
    (∀ i j : Nat, i ≤ j → sameMillisecond.now i ≤ sameMillisecond.now j) := by
  have hsvg := (spawnAircraft_of_svg sameMillisecond 5 emptyDocument rfl).2.2.1
  refine ⟨sameMillisecond_ids 5 emptyDocument rfl, sameMillisecond_ids 3 _ hsvg, ?_⟩
  intro i j _
  exact le_refl _

/-- C4 (failing input). The level `getRandomLevel` returns for the draw `0` is
`1000`, and `getDisplayLevel` of an aircraft with that level is the
4-character string `1000`, not a 3-character one. -/
theorem getDisplayLevel_of_spawned_level_has_four_characters :
    getRandomLevel 0 = 1000 ∧
    (Aircraft.new 1700000000000 0 "UAL100" 900 300 (getRandomLevel 0) 25 240).getDisplayLevel
      = "1000" ∧
    (Aircraft.new 1700000000000 0 "UAL100" 900 300 (getRandomLevel 0) 25 240).getDisplayLevel.length
      = 4 := by
  have hl : getRandomLevel 0 = 1000 := getRandomLevel_zero
  refine ⟨hl, ?_, ?_⟩
  · unfold Aircraft.getDisplayLevel Aircraft.new
    simp only [hl]
    decide
  · unfold Aircraft.getDisplayLevel Aircraft.new
    simp only [hl]
    decide

/-- For every draw in `[0,1)` the display of the level `getRandomLevel` returns
is the unpadded decimal text of the level, 4 characters long. -/
theorem getDisplayLevel_of_getRandomLevel (a : Aircraft) (r : ℚ) (h0 : 0 ≤ r) (h1 : r < 1)
    (hl : a.level = getRandomLevel r) :
    a.getDisplayLevel = jsString a.level ∧ a.getDisplayLevel.length = 4 := by
  obtain ⟨k, hk0, hk1, hk⟩ := getRandomLevel_mem r h0 h1
  unfold Aircraft.getDisplayLevel
  rw [hl, hk]
  interval_cases k <;> decide

/-- C5. For every speed in `[25,39]`, and for every speed `getRandomSpeed`
returns, `getDisplaySpeed` is the decimal text of the speed and has exactly 2
characters; for every speed in `[0,9]` it is `0` followed by the digit. -/
theorem getDisplaySpeed_two_characters (a : Aircraft) :
    (25 ≤ a.speed → a.speed ≤ 39 →
      a.getDisplaySpeed = jsString a.speed ∧ a.getDisplaySpeed.length = 2) ∧
    (∀ r : ℚ, 0 ≤ r → r < 1 → a.speed = getRandomSpeed r →
      a.getDisplaySpeed = jsString a.speed ∧ a.getDisplaySpeed.length = 2) ∧
    (0 ≤ a.speed → a.speed ≤ 9 →
      a.getDisplaySpeed = "0" ++ jsString a.speed ∧ a.getDisplaySpeed.length = 2) := by
  have key : ∀ s : Int, 25 ≤ s → s ≤ 39 →
      padStart (jsString s) 2 "0" = jsString s ∧ (padStart (jsString s) 2 "0").length = 2 := by
    intro s h0 h1
    interval_cases s <;> decide
  unfold Aircraft.getDisplaySpeed
  refine ⟨key a.speed, ?_, ?_⟩
  · intro r h0 h1 hs
    have hb := getRandomSpeed_bounds r h0 h1
    rw [← hs] at hb
    rcases (show a.speed ≤ 39 ∨ a.speed = 40 by omega) with h39 | h40
    · exact key a.speed hb.1 h39
    · rw [h40]; decide
  · generalize a.speed = s
    intro h0 h1
    interval_cases s <;> decide

theorem getDisplaySpeed_two_characters_witness :
    (25 : Int) ≤ 31 ∧ (31 : Int) ≤ 39 ∧
    (Aircraft.new 1700000000000 0 "UAL100" 900 300 1000 31 240).getDisplaySpeed = jsString 31 ∧
    (Aircraft.new 1700000000000 0 "UAL100" 900 300 1000 31 240).getDisplaySpeed.length = 2 :=
  ⟨by decide, by decide,
    (getDisplaySpeed_two_characters
      (Aircraft.new 1700000000000 0 "UAL100" 900 300 1000 31 240)).1 (by decide) (by decide)⟩

/-- C6 (counterexample). The draw `1 - 2^-53` is a binary64 number in `[0,1)`
for which `getRandomLevel` returns `1250`, which is none of
`1000, 1010, ..., 1240`. -/
theorem getRandomLevel_top_draw_is_1250 :
    binary64 (1 - 1 / 2 ^ 53) = 1 - 1 / 2 ^ 53 ∧
    (0 : ℚ) ≤ 1 - 1 / 2 ^ 53 ∧ (1 - 1 / 2 ^ 53 : ℚ) < 1 ∧
    getRandomLevel (1 - 1 / 2 ^ 53) = 1250 ∧
    ¬ ∃ k : Int, 0 ≤ k ∧ k ≤ 24 ∧ getRandomLevel (1 - 1 / 2 ^ 53) = 1000 + 10 * k := by
  refine ⟨top_draw_is_binary64, by norm_num, by norm_num, getRandomLevel_top_draw, ?_⟩
  rw [getRandomLevel_top_draw]
  rintro ⟨k, -, hk, h⟩
  omega

/-- C6 (amended). For every draw `r` in `[0,1)`, `getRandomLevel`, computed in
binary64 as the code computes it, is one of `1000, 1010, ..., 1250`; each of
`1000, 1010, ..., 1240` is returned for some binary64 draw in `[0,1)`. -/
theorem getRandomLevel_range :
    (∀ r : ℚ, 0 ≤ r → r < 1 →
      ∃ k : Int, 0 ≤ k ∧ k ≤ 25 ∧ getRandomLevel r = 1000 + 10 * k) ∧
    (∀ k : Int, 0 ≤ k → k ≤ 24 →
      ∃ r : ℚ, 0 ≤ r ∧ r < 1 ∧ binary64 r = r ∧ getRandomLevel r = 1000 + 10 * k) := by
  refine ⟨getRandomLevel_mem, ?_⟩
  intro k h0 h24
  obtain ⟨n, rfl⟩ := Int.eq_ofNat_of_zero_le h0
  have hn : n ≤ 24 := by omega
  have hd := getRandomLevel_dyadic ((32 * n + 24) / 25) (by omega)
  refine ⟨_, hd.1, hd.2.1, hd.2.2.1, ?_⟩
  rw [hd.2.2.2]
  have e : (100 * 2 ^ 5 + (32 * n + 24) / 25 * 25) / 2 ^ 5 = 100 + n := by
    norm_num
    omega
  rw [e]
  push_cast
  ring

theorem getRandomLevel_range_witness :
    (0 : ℚ) ≤ 1 / 2 ∧ (1 / 2 : ℚ) < 1 ∧
    ∃ k : Int, 0 ≤ k ∧ k ≤ 25 ∧ getRandomLevel (1 / 2) = 1000 + 10 * k :=
  ⟨by norm_num, by norm_num, getRandomLevel_range.1 (1 / 2) (by norm_num) (by norm_num)⟩

/-- C7 (counterexample). The draw `1 - 2^-53` is a binary64 number in `[0,1)`
for which `getRandomSpeed` returns `40`. -/
theorem getRandomSpeed_top_draw_is_40 :
    binary64 (1 - 1 / 2 ^ 53) = 1 - 1 / 2 ^ 53 ∧
    (0 : ℚ) ≤ 1 - 1 / 2 ^ 53 ∧ (1 - 1 / 2 ^ 53 : ℚ) < 1 ∧
    getRandomSpeed (1 - 1 / 2 ^ 53) = 40 ∧
    ¬ (25 ≤ getRandomSpeed (1 - 1 / 2 ^ 53) ∧ getRandomSpeed (1 - 1 / 2 ^ 53) ≤ 39) := by
  refine ⟨top_draw_is_binary64, by norm_num, by norm_num, getRandomSpeed_top_draw, ?_⟩
  rw [getRandomSpeed_top_draw]
  decide

/-- C7 (amended). For every draw `r` in `[0,1)`, `getRandomSpeed`, computed in
binary64 as the code computes it, is an integer in `[25,40]`; every integer in
`[25,39]` is returned for some binary64 draw in `[0,1)`. -/
theorem getRandomSpeed_range :
    (∀ r : ℚ, 0 ≤ r → r < 1 → 25 ≤ getRandomSpeed r ∧ getRandomSpeed r ≤ 40) ∧
    (∀ s : Int, 25 ≤ s → s ≤ 39 →
      ∃ r : ℚ, 0 ≤ r ∧ r < 1 ∧ binary64 r = r ∧ getRandomSpeed r = s) := by
  refine ⟨getRandomSpeed_bounds, ?_⟩
  intro s h0 h39
  obtain ⟨n, hn⟩ := Int.eq_ofNat_of_zero_le (by omega : 0 ≤ s - 25)
  have hn14 : n ≤ 14 := by omega
  have hd := getRandomSpeed_dyadic ((16 * n + 14) / 15) (by omega)
  refine ⟨_, hd.1, hd.2.1, hd.2.2.1, ?_⟩
  rw [hd.2.2.2]
  have e : (25 * 2 ^ 4 + (16 * n + 14) / 15 * 15) / 2 ^ 4 = 25 + n := by
    norm_num
    omega
  rw [e]
  push_cast
  omega

theorem getRandomSpeed_range_witness :
    (0 : ℚ) ≤ 15 / 16 ∧ (15 / 16 : ℚ) < 1 ∧
    25 ≤ getRandomSpeed (15 / 16) ∧ getRandomSpeed (15 / 16) ≤ 40 :=
  ⟨by norm_num, by norm_num, getRandomSpeed_range.1 (15 / 16) (by norm_num) (by norm_num)⟩

/-- C8. For every pair of draws in `[0,1)`, the prefix index `floor(r2*9)` is a
valid index of `prefixes`, and `generateCallsign` is that prefix followed by
the decimal text of an integer in `[100,999]`: exactly 6 characters, in which
the text `undefined` does not occur. -/
theorem generateCallsign_format (r1 r2 : ℚ) (h1 : 0 ≤ r1) (h1' : r1 < 1)
    (h2 : 0 ≤ r2) (h2' : r2 < 1) :
    ∃ p : String, ∃ n : Int,
      p ∈ prefixes ∧ jsIndex prefixes ⌊r2 * 9⌋ = some p ∧
      100 ≤ n ∧ n ≤ 999 ∧
      generateCallsign r1 r2 = p ++ jsString n ∧
      (generateCallsign r1 r2).length = 6 ∧
      ¬ ("undefined".data <:+: (generateCallsign r1 r2).data) := by
  have hn := floor_affine_bounds r1 h1 h1' 100 900 (by decide)
  have hi := floor_affine_bounds r2 h2 h2' 0 9 (by decide)
  push_cast at hn hi
  rw [zero_add] at hi
  have hlen9 : ((prefixes.length : Nat) : ℚ) = 9 := by norm_num [prefixes]
  have hp : ∃ p : String, p ∈ prefixes ∧ jsIndex prefixes ⌊r2 * 9⌋ = some p ∧ p.length = 3 := by
    obtain ⟨hi0, hi8⟩ := hi
    generalize ⌊r2 * 9⌋ = i at hi0 hi8
    interval_cases i
    · exact ⟨"UAL", by decide, by decide, by decide⟩
    · exact ⟨"AAL", by decide, by decide, by decide⟩
    · exact ⟨"DAL", by decide, by decide, by decide⟩
    · exact ⟨"SWA", by decide, by decide, by decide⟩
    · exact ⟨"EZY", by decide, by decide, by decide⟩
    · exact ⟨"RYR", by decide, by decide, by decide⟩
    · exact ⟨"BAW", by decide, by decide, by decide⟩
    · exact ⟨"KLM", by decide, by decide, by decide⟩
    · exact ⟨"AFR", by decide, by decide, by decide⟩
  obtain ⟨p, hpm, hpi, hpl⟩ := hp
  have hcs : generateCallsign r1 r2 = p ++ jsString ⌊100 + r1 * 900⌋ := by
    unfold generateCallsign
    simp only [hlen9, hpi, jsStringOfOption]
  have hl6 : (generateCallsign r1 r2).length = 6 := by
    rw [hcs, String.length_append, hpl, jsString_length_three _ hn.1 (by omega)]
  refine ⟨p, ⌊100 + r1 * 900⌋, hpm, hpi, hn.1, by omega, hcs, hl6, ?_⟩
  intro hinf
  have hle := hinf.length_le
  have hl6' : (generateCallsign r1 r2).data.length = 6 := hl6
  rw [hl6'] at hle
  exact absurd hle (by decide)

theorem generateCallsign_format_witness :
    (0 : ℚ) ≤ 1 / 2 ∧ (1 / 2 : ℚ) < 1 ∧ (0 : ℚ) ≤ 8 / 9 ∧ (8 / 9 : ℚ) < 1 ∧
    ∃ p : String, ∃ n : Int,
      p ∈ prefixes ∧ jsIndex prefixes ⌊(8 / 9 : ℚ) * 9⌋ = some p ∧
      100 ≤ n ∧ n ≤ 999 ∧
      generateCallsign (1 / 2) (8 / 9) = p ++ jsString n ∧
      (generateCallsign (1 / 2) (8 / 9)).length = 6 ∧
      ¬ ("undefined".data <:+: (generateCallsign (1 / 2) (8 / 9)).data) :=
  ⟨by norm_num, by norm_num, by norm_num, by norm_num,
    generateCallsign_format (1 / 2) (8 / 9) (by norm_num) (by norm_num) (by norm_num)
      (by norm_num)⟩

/-- C9. Over the reals, for every point `(x, y)` and every distance `d > 0`,
`getAngle(x, y, x, y - d) = 0` (straight up in screen coordinates) and
`getAngle(x, y, x + d, y) = 90` (straight right). -/
theorem getAngle_up_and_right (x y d : ℝ) (hd : 0 < d) :
    getAngle x y x (y - d) = 0 ∧ getAngle x y (x + d) y = 90 := by
  have hpi : Real.pi ≠ 0 := Real.pi_ne_zero
  constructor
  · unfold getAngle
    have hx : x - x = 0 := sub_self x
    have hy : y - d - y = -d := by ring
    simp only [hx, hy, atan2_neg_of_zero d hd]
    field_simp
    ring
  · unfold getAngle
    have hx : x + d - x = d := by ring
    have hy : y - y = 0 := sub_self y
    simp only [hx, hy, atan2_zero_of_pos d hd]
    simp

theorem getAngle_up_and_right_witness :
    (0 : ℝ) < 10 ∧ getAngle 0 0 0 (-10) = 0 ∧ getAngle 0 0 10 0 = 90 := by
  have h := getAngle_up_and_right 0 0 10 (by norm_num)
  refine ⟨by norm_num, ?_, ?_⟩
  · simpa using h.1
  · simpa using h.2

/-- C10. With `radialsData` empty and the display surface present, for every
`N >= 0` and every sequence of draws `spawnAircraft(N)` ends normally (no
error is thrown), leaves exactly `N` aircraft in `aircrafts`, logs the warning
once, and each of its `N` iterations runs the else arm of the placement: the
radial arm is never entered. -/
theorem spawnAircraft_without_radials (env : Env) (st : State) (N : Int) (hN : 0 ≤ N)
    (hrad : st.radialsData = []) (hsvg : st.svg.isSome = true) :
    (spawnAircraft env N st).1 = Completion.normal ∧
    ((spawnAircraft env N st).2.aircrafts.length : Int) = N ∧
    (spawnAircraft env N st).2.branches
      = st.branches ++ List.replicate N.toNat Branch.fallback ∧
    (∀ i : Int, Branch.radial i ∉ List.replicate N.toNat Branch.fallback) ∧
    (spawnAircraft env N st).2.console = st.console ++
      ["No 'radials' paths found in the SVG. Aircraft will spawn randomly."] := by
  have h := spawnAircraft_of_svg env N st hsvg
  obtain ⟨children, hc⟩ := Option.isSome_iff_exists.mp hsvg
  have hloop := spawnLoop_no_radials env N.toNat
    { st with aircrafts := [], console := st.console ++
        ["No 'radials' paths found in the SVG. Aircraft will spawn randomly."] }
    children hc hrad
  have heq : spawnAircraft env N st = spawnLoop env N.toNat
      { st with aircrafts := [], console := st.console ++
        ["No 'radials' paths found in the SVG. Aircraft will spawn randomly."] } := by
    unfold spawnAircraft
    simp [hrad]
  refine ⟨h.1, ?_, ?_, ?_, ?_⟩
  · rw [h.2.1]; omega
  · rw [heq]; exact hloop.1
  · intro i hi
    have := List.eq_of_mem_replicate hi
    cases this
  · rw [heq]; exact hloop.2

theorem spawnAircraft_without_radials_witness :
    (0 : Int) ≤ 4 ∧ emptyDocument.radialsData = [] ∧ emptyDocument.svg.isSome = true ∧
    (spawnAircraft sameMillisecond 4 emptyDocument).1 = Completion.normal ∧
    ((spawnAircraft sameMillisecond 4 emptyDocument).2.aircrafts.length : Int) = 4 ∧
    (spawnAircraft sameMillisecond 4 emptyDocument).2.branches
      = emptyDocument.branches ++ List.replicate (4 : Int).toNat Branch.fallback :=
  have h := spawnAircraft_without_radials sameMillisecond emptyDocument 4 (by decide) rfl rfl
  ⟨by decide, rfl, rfl, h.1, h.2.1, h.2.2.1⟩

/-- C11 (counterexample). The text `100` denotes an integer outside `[1,50]`;
the number input reports it unchanged, `parseInt(value || 10)` is `100`, not
`10`, and the click spawns 100 aircraft. -/
theorem respawnCount_out_of_range_is_not_default :
    decimalText 100 = "100" ∧ ¬ ((1 : Int) ≤ 100 ∧ (100 : Int) ≤ 50) ∧
    respawnCount (numberInputValue "100") = some 100 ∧
    respawnCount (numberInputValue "100") ≠ some 10 ∧
    (onRespawnClick sameMillisecond "100" emptyDocument).2.aircrafts.length = 100 := by
  have ht : decimalText 100 = "100" := by decide
  have hc : respawnCount (numberInputValue "100") = some 100 := by
    have h := respawnCount_decimalText 100 (by decide)
    rw [ht] at h
    exact h
  refine ⟨ht, by decide, hc, by rw [hc]; decide, ?_⟩
  exact (onRespawnClick_length sameMillisecond "100" emptyDocument 100 rfl hc).2

/-- C11 (amended). For the count `parseInt(value || 10)` of the respawn
control: when the input text is not a valid number, the number input reports an
empty value and the count passed to `spawnAircraft` is 10 (10 aircraft are
spawned); when the text is the decimal text of an integer `n` in `[1,50]`, `n`
is passed; and when it is the decimal text of an integer `n` outside `[1,50]`,
of magnitude at most `2^53`, `n` is passed as well, not 10 (`max(n, 0)` aircraft
are spawned). -/
theorem respawnCount_spec (env : Env) (st : State) (hsvg : st.svg.isSome = true) :
    (∀ text : String, isValidFloatingPointNumber text.data = false →
      respawnCount (numberInputValue text) = some 10 ∧
      (onRespawnClick env text st).2.aircrafts.length = 10) ∧
    (∀ n : Int, 1 ≤ n → n ≤ 50 →
      respawnCount (numberInputValue (decimalText n)) = some n ∧
      (onRespawnClick env (decimalText n) st).2.aircrafts.length = n.toNat) ∧
    (∀ n : Int, n < 1 ∨ 50 < n → n.natAbs ≤ 2 ^ 53 →
      respawnCount (numberInputValue (decimalText n)) = some n ∧
      respawnCount (numberInputValue (decimalText n)) ≠ some 10 ∧
      (onRespawnClick env (decimalText n) st).2.aircrafts.length = n.toNat) := by
  refine ⟨?_, ?_, ?_⟩
  · intro text h
    have hc := respawnCount_of_invalid text h
    exact ⟨hc, (onRespawnClick_length env text st 10 hsvg hc).2⟩
  · intro n h1 h50
    have hc := respawnCount_decimalText n (by
      have : n.natAbs ≤ 50 := by omega
      exact this.trans (by norm_num))
    exact ⟨hc, (onRespawnClick_length env (decimalText n) st n hsvg hc).2⟩
  · intro n hout hmag
    have hc := respawnCount_decimalText n hmag
    refine ⟨hc, ?_, (onRespawnClick_length env (decimalText n) st n hsvg hc).2⟩
    rw [hc]
    intro h10
    have := Option.some.inj h10
    omega

theorem respawnCount_spec_witness :
    emptyDocument.svg.isSome = true ∧
    isValidFloatingPointNumber "abc".data = false ∧
    respawnCount (numberInputValue "abc") = some 10 ∧
    (onRespawnClick sameMillisecond "abc" emptyDocument).2.aircrafts.length = 10 :=
  ⟨rfl, by decide,
    (respawnCount_spec sameMillisecond emptyDocument rfl).1 "abc" (by decide)⟩

/-- C12. Provided the display surface exists, `spawnAircraft` completes and
afterwards every aircraft in `aircrafts` has a non-null `svgElement`: the
handle of a group that is a child of `#atc-map`, that `drawAircraft` built from
this aircraft, whose `id` attribute is the aircraft's id and whose transform is
made of the aircraft's `x`, `y` and `heading`. -/
theorem spawnAircraft_handles (env : Env) (numAircraft : Int) (st : State)
    (hsvg : st.svg.isSome = true) :
    (spawnAircraft env numAircraft st).1 = Completion.normal ∧
    ∀ a ∈ (spawnAircraft env numAircraft st).2.aircrafts,
      ∃ h : Nat, ∃ g : SvgGroup, ∃ children : List Nat,
        a.svgElement = some h ∧
        (spawnAircraft env numAircraft st).2.nodes[h]? = some g ∧
        (spawnAircraft env numAircraft st).2.svg = some children ∧ h ∈ children ∧
        g = buildGroup a ∧ g.id = a.id ∧
        g.transform.tx = a.x ∧ g.transform.ty = a.y ∧ g.transform.rot = a.heading := by
  refine ⟨(spawnAircraft_of_svg env numAircraft st hsvg).1, ?_⟩
  obtain ⟨st0, e1, e2, -, -, e5⟩ := spawnAircraft_eq env numAircraft st
  obtain ⟨children, hc⟩ := Option.isSome_iff_exists.mp hsvg
  have h0 : Rendered st0 := by
    intro a ha
    rw [e1] at ha
    cases ha
  have hr := spawnLoop_rendered env numAircraft.toNat st0 children (by rw [e2, hc]) h0
  rw [e5]
  intro a ha
  obtain ⟨h, ch, r1, r2, r3, r4⟩ := hr a ha
  exact ⟨h, buildGroup a, ch, r1, r2, r3, r4, rfl, rfl, rfl, rfl, rfl⟩

theorem spawnAircraft_handles_witness :
    emptyDocument.svg.isSome = true ∧
    (spawnAircraft sameMillisecond 4 emptyDocument).1 = Completion.normal ∧
    ∀ a ∈ (spawnAircraft sameMillisecond 4 emptyDocument).2.aircrafts,
      ∃ h : Nat, ∃ g : SvgGroup, ∃ children : List Nat,
        a.svgElement = some h ∧
        (spawnAircraft sameMillisecond 4 emptyDocument).2.nodes[h]? = some g ∧
        (spawnAircraft sameMillisecond 4 emptyDocument).2.svg = some children ∧ h ∈ children ∧
        g = buildGroup a ∧ g.id = a.id ∧
        g.transform.tx = a.x ∧ g.transform.ty = a.y ∧ g.transform.rot = a.heading :=
  ⟨rfl, spawnAircraft_handles sameMillisecond 4 emptyDocument rfl⟩

/-- C13. Over the reals, every aircraft in `aircrafts` after `spawnAircraft`,
placed by the radial arm or by the else arm, for every draw of the angle, lies
at exactly `SPAWN_DISTANCE` from the airfield centre:
`(x - 500)^2 + (y - 300)^2 = 400^2`; so does the point the placement of an
iteration computes from any state. -/
theorem spawnAircraft_on_spawn_circle (env : Env) (numAircraft : Int) (st : State) :
    (∀ a ∈ (spawnAircraft env numAircraft st).2.aircrafts,
      (a.x - AIRFIELD_CENTER_X) ^ 2 + (a.y - AIRFIELD_CENTER_Y) ^ 2 = SPAWN_DISTANCE ^ 2) ∧
    ((placeAircraft env st).1.1 - 500) ^ 2 + ((placeAircraft env st).1.2.1 - 300) ^ 2
      = 400 ^ 2 ∧
    AIRFIELD_CENTER_X = 500 ∧ AIRFIELD_CENTER_Y = 300 ∧ SPAWN_DISTANCE = 400 := by
  refine ⟨?_, placeAircraft_on_circle env st, rfl, rfl, rfl⟩
  apply spawnAircraft_forall
  intro s o
  exact iterationAircraft_on_circle env s

/-- C14. Over the reals, with `h = getAngle(x1, y1, x2, y2)` and `L` the
distance of two distinct points, `L * sin(h°) = x2 - x1` and
`-L * cos(h°) = y2 - y1` (0 is up, clockwise positive); hence an aircraft in
`aircrafts` after `spawnAircraft` whose heading is the unperturbed
`getAngle(x, y, 500, 300)` reaches `(500, 300)` by moving `SPAWN_DISTANCE`
along its heading. -/
theorem getAngle_heading_convention :
    (∀ x1 y1 x2 y2 : ℝ, x1 ≠ x2 ∨ y1 ≠ y2 →
      Real.sqrt ((x2 - x1) ^ 2 + (y2 - y1) ^ 2) *
          Real.sin (getAngle x1 y1 x2 y2 * Real.pi / 180) = x2 - x1 ∧
      -(Real.sqrt ((x2 - x1) ^ 2 + (y2 - y1) ^ 2) *
          Real.cos (getAngle x1 y1 x2 y2 * Real.pi / 180)) = y2 - y1) ∧
    (∀ (env : Env) (numAircraft : Int) (st : State),
      ∀ a ∈ (spawnAircraft env numAircraft st).2.aircrafts,
        a.heading = getAngle a.x a.y AIRFIELD_CENTER_X AIRFIELD_CENTER_Y →
        a.x + SPAWN_DISTANCE * Real.sin (a.heading * Real.pi / 180) = AIRFIELD_CENTER_X ∧
        a.y - SPAWN_DISTANCE * Real.cos (a.heading * Real.pi / 180) = AIRFIELD_CENTER_Y) := by
  have key : ∀ x1 y1 x2 y2 : ℝ,
      Real.sqrt ((x2 - x1) ^ 2 + (y2 - y1) ^ 2) *
          Real.sin (getAngle x1 y1 x2 y2 * Real.pi / 180) = x2 - x1 ∧
      -(Real.sqrt ((x2 - x1) ^ 2 + (y2 - y1) ^ 2) *
          Real.cos (getAngle x1 y1 x2 y2 * Real.pi / 180)) = y2 - y1 := by
    intro x1 y1 x2 y2
    rw [getAngle_radians, Real.sin_add_pi_div_two, Real.cos_add_pi_div_two]
    obtain ⟨hc, hs⟩ := atan2_polar (y2 - y1) (x2 - x1)
    exact ⟨hc, by linarith⟩
  refine ⟨fun x1 y1 x2 y2 _ => key x1 y1 x2 y2, ?_⟩
  intro env numAircraft st
  apply spawnAircraft_forall
  intro s o hhead
  have hcirc := iterationAircraft_on_circle env s
  simp only at hhead ⊢
  generalize iterationAircraft env s = a at hhead hcirc
  obtain ⟨h1, h2⟩ := key a.x a.y AIRFIELD_CENTER_X AIRFIELD_CENTER_Y
  rw [← hhead] at h1 h2
  have hL : Real.sqrt ((AIRFIELD_CENTER_X - a.x) ^ 2 + (AIRFIELD_CENTER_Y - a.y) ^ 2)
      = SPAWN_DISTANCE := by
    unfold AIRFIELD_CENTER_X AIRFIELD_CENTER_Y SPAWN_DISTANCE
    rw [show (500 - a.x) ^ 2 + (300 - a.y) ^ 2 = (400 : ℝ) ^ 2 by nlinarith]
    exact Real.sqrt_sq (by norm_num)
  rw [hL] at h1 h2
  constructor <;> linarith

theorem getAngle_heading_convention_witness :
    ((0 : ℝ) ≠ 3 ∨ (0 : ℝ) ≠ -4) ∧
    Real.sqrt ((3 - 0) ^ 2 + (-4 - 0) ^ 2) *
        Real.sin (getAngle 0 0 3 (-4) * Real.pi / 180) = 3 - 0 ∧
    -(Real.sqrt ((3 - 0) ^ 2 + (-4 - 0) ^ 2) *
        Real.cos (getAngle 0 0 3 (-4) * Real.pi / 180)) = -4 - 0 :=
  ⟨Or.inl (by norm_num), getAngle_heading_convention.1 0 0 3 (-4) (Or.inl (by norm_num))⟩

/-- C15. For the aircraft at every position `i` of `aircrafts` after
`spawnAircraft`, with `base = getAngle(x, y, 500, 300)`, `s` the state in which
iteration `i` starts and `p` the draw of line 176 (the one made right after the
placement of that iteration, `env.random k`): the heading is `base` exactly
when `p` is at least the binary64 number `0.3`, and `base + (r*60 - 30)` for
the next draw `r` when `p` is below it; with `r` in `[0,1)` the heading differs
from `base` by a value in `[-30, 30]` in every case. -/
theorem spawnAircraft_heading_perturbation (env : Env) (numAircraft : Int) (st : State)
    (i : Nat) (a : Aircraft) (s : State) (k : Nat)
    (ha : (spawnAircraft env numAircraft st).2.aircrafts[i]? = some a)
    (hs : s = (spawnLoop env i (spawnStart st)).2)
    (hk : k = (placeAircraft env s).2.randomCalls) :
    (binary64 (3 / 10) ≤ env.random k → a.heading = getAngle a.x a.y 500 300) ∧
    (env.random k < binary64 (3 / 10) →
      a.heading = getAngle a.x a.y 500 300 + ((env.random (k + 1) : ℝ) * 60 - 30)) ∧
    (0 ≤ env.random (k + 1) → env.random (k + 1) < 1 →
      -30 ≤ a.heading - getAngle a.x a.y 500 300 ∧
      a.heading - getAngle a.x a.y 500 300 ≤ 30) := by
  obtain ⟨o, rfl⟩ := spawnAircraft_getElem env numAircraft st i a ha
  subst hs hk
  obtain ⟨h1, h2⟩ := iterationAircraft_heading env (spawnLoop env i (spawnStart st)).2
  refine ⟨h1, h2, ?_⟩
  intro r0 r1
  have q0 : (0 : ℝ) ≤ (env.random ((placeAircraft env
      (spawnLoop env i (spawnStart st)).2).2.randomCalls + 1) : ℝ) := by exact_mod_cast r0
  have q1 : (env.random ((placeAircraft env
      (spawnLoop env i (spawnStart st)).2).2.randomCalls + 1) : ℝ) < 1 := by exact_mod_cast r1
  rcases le_or_lt (binary64 (3 / 10))
    (env.random (placeAircraft env (spawnLoop env i (spawnStart st)).2).2.randomCalls)
    with hge | hlt
  · have e := h1 hge
    simp only at e ⊢
    rw [e]
    constructor <;> norm_num
  · have e := h2 hlt
    simp only at e ⊢
    rw [e]
    constructor <;> linarith

theorem spawnAircraft_heading_perturbation_witness :
    ∃ a : Aircraft,
      (spawnAircraft sameMillisecond 4 emptyDocument).2.aircrafts[0]? = some a ∧
      (placeAircraft sameMillisecond (spawnStart emptyDocument)).2.randomCalls = 1 ∧
      sameMillisecond.random 1 < binary64 (3 / 10) ∧
      a.heading = getAngle a.x a.y 500 300 + ((sameMillisecond.random 2 : ℝ) * 60 - 30) ∧
      -30 ≤ a.heading - getAngle a.x a.y 500 300 ∧
      a.heading - getAngle a.x a.y 500 300 ≤ 30 := by
  have hlen := (spawnAircraft_of_svg sameMillisecond 4 emptyDocument rfl).2.1
  have h0 : 0 < (spawnAircraft sameMillisecond 4 emptyDocument).2.aircrafts.length := by
    rw [hlen]; decide
  have ha : (spawnAircraft sameMillisecond 4 emptyDocument).2.aircrafts[0]? =
      some ((spawnAircraft sameMillisecond 4 emptyDocument).2.aircrafts.get ⟨0, h0⟩) :=
    List.getElem?_eq_getElem h0
  have hlt : sameMillisecond.random 1 < binary64 (3 / 10) := by
    rw [binary64_three_tenths]
    norm_num [sameMillisecond]
  have T := spawnAircraft_heading_perturbation sameMillisecond 4 emptyDocument 0 _
    (spawnStart emptyDocument) 1 ha rfl rfl
  exact ⟨_, ha, rfl, hlt, T.2.1 hlt,
    T.2.2 (sameMillisecond_random 2).1 (sameMillisecond_random 2).2⟩

/-- C16. For any two non-empty radial lists, of any lengths and contents, the
same `N`, the same clock and the same draws, `spawnAircraft(N)` ends the same
way and leaves the same sequence of aircraft (id, callsign, x, y, level, speed
and heading equal position by position): the radial selected has no effect. -/
theorem spawnAircraft_independent_of_radials (env : Env) (numAircraft : Int) (st : State)
    (radials1 radials2 : List Radial) (h1 : radials1 ≠ []) (h2 : radials2 ≠ []) :
    (spawnAircraft env numAircraft { st with radialsData := radials1 }).1 =
      (spawnAircraft env numAircraft { st with radialsData := radials2 }).1 ∧
    (spawnAircraft env numAircraft { st with radialsData := radials1 }).2.aircrafts =
      (spawnAircraft env numAircraft { st with radialsData := radials2 }).2.aircrafts := by
  have l1 : 0 < radials1.length := List.length_pos.mpr h1
  have l2 : 0 < radials2.length := List.length_pos.mpr h2
  have hsim : SameButRadials
      { st with radialsData := radials1, aircrafts := [] }
      { st with radialsData := radials2, aircrafts := [] } :=
    ⟨rfl, rfl, rfl, rfl, rfl, rfl, l1, l2⟩
  have e1 : spawnAircraft env numAircraft { st with radialsData := radials1 } =
      spawnLoop env numAircraft.toNat { st with radialsData := radials1, aircrafts := [] } := by
    unfold spawnAircraft
    simp [Nat.pos_iff_ne_zero.mp l1]
  have e2 : spawnAircraft env numAircraft { st with radialsData := radials2 } =
      spawnLoop env numAircraft.toNat { st with radialsData := radials2, aircrafts := [] } := by
    unfold spawnAircraft
    simp [Nat.pos_iff_ne_zero.mp l2]
  rw [e1, e2]
  obtain ⟨r1, r2⟩ := spawnLoop_sameButRadials env numAircraft.toNat _ _ hsim
  exact ⟨r1, r2.1⟩

theorem spawnAircraft_independent_of_radials_witness :
    [Radial.mk "M500 300 L900 300"] ≠ [] ∧
    [Radial.mk "M500 300 L500 0", Radial.mk "M500 300 L0 300"] ≠ [] ∧
    (spawnAircraft sameMillisecond 4
        { emptyDocument with radialsData := [Radial.mk "M500 300 L900 300"] }).2.aircrafts =
      (spawnAircraft sameMillisecond 4
        { emptyDocument with radialsData :=
            [Radial.mk "M500 300 L500 0", Radial.mk "M500 300 L0 300"] }).2.aircrafts :=
  ⟨List.cons_ne_nil _ _, List.cons_ne_nil _ _,
    (spawnAircraft_independent_of_radials sameMillisecond 4 emptyDocument
      [Radial.mk "M500 300 L900 300"]
      [Radial.mk "M500 300 L500 0", Radial.mk "M500 300 L0 300"]
      (List.cons_ne_nil _ _) (List.cons_ne_nil _ _)).2⟩

/-- C17. For every aircraft and every `newX`, `newY`, `updatePosition` sets
`x = newX` and `y = newY` and leaves id, callsign, level, speed, heading and
the handle as they were; with a handle attached the transform of its group
becomes `translate(newX, newY) rotate(heading)` with the unchanged heading, the
rest of that group and every other group staying as they were; without a handle
no group is touched. -/
theorem updatePosition_frame (a : Aircraft) (newX newY : ℝ) (nodes : List SvgGroup) :
    (a.updatePosition newX newY nodes).1 = { a with x := newX, y := newY } ∧
    (a.updatePosition newX newY nodes).1.x = newX ∧
    (a.updatePosition newX newY nodes).1.y = newY ∧
    (a.updatePosition newX newY nodes).1.id = a.id ∧
    (a.updatePosition newX newY nodes).1.callsign = a.callsign ∧
    (a.updatePosition newX newY nodes).1.level = a.level ∧
    (a.updatePosition newX newY nodes).1.speed = a.speed ∧
    (a.updatePosition newX newY nodes).1.heading = a.heading ∧
    (a.updatePosition newX newY nodes).1.svgElement = a.svgElement ∧
    (∀ (h : Nat) (g : SvgGroup), a.svgElement = some h → nodes[h]? = some g →
      (a.updatePosition newX newY nodes).2[h]? =
        some { g with transform := { tx := newX, ty := newY, rot := a.heading } } ∧
      ∀ k : Nat, k ≠ h → (a.updatePosition newX newY nodes).2[k]? = nodes[k]?) ∧
    (a.svgElement = none → (a.updatePosition newX newY nodes).2 = nodes) := by
  have hfst : (a.updatePosition newX newY nodes).1 = { a with x := newX, y := newY } := by
    unfold Aircraft.updatePosition
    simp only
    split <;> rfl
  refine ⟨hfst, by rw [hfst], by rw [hfst], by rw [hfst], by rw [hfst], by rw [hfst],
    by rw [hfst], by rw [hfst], by rw [hfst], ?_, ?_⟩
  · intro h g hs hg
    have hsnd : (a.updatePosition newX newY nodes).2 = nodes.modify
        (fun g => { g with transform := { tx := newX, ty := newY, rot := a.heading } }) h := by
      unfold Aircraft.updatePosition
      simp only [hs]
    rw [hsnd]
    constructor
    · rw [List.getElem?_modify_eq, hg]
      rfl
    · intro k hk
      exact List.getElem?_modify_ne _ _ (Ne.symm hk)
  · intro hs
    unfold Aircraft.updatePosition
    simp only [hs]

theorem updatePosition_frame_witness :
    (Aircraft.new 1700000000000 0 "UAL100" 900 300 1000 25 240).svgElement = none ∧
    ((Aircraft.new 1700000000000 0 "UAL100" 900 300 1000 25 240).updatePosition 1 2 []).2 = [] :=
  ⟨rfl, (updatePosition_frame (Aircraft.new 1700000000000 0 "UAL100" 900 300 1000 25 240)
    1 2 []).2.2.2.2.2.2.2.2.2.2 rfl⟩

/-- C18 (failing input). The comment on `getRandomLevel` gives levels between
100 and 350; for the draw `0` the function returns `1000`, which is above
350. -/
theorem getRandomLevel_exceeds_documented_range :
    getRandomLevel 0 = 1000 ∧ ¬ (100 ≤ getRandomLevel 0 ∧ getRandomLevel 0 ≤ 350) := by
  have hl : getRandomLevel 0 = 1000 := getRandomLevel_zero
  rw [hl]
  exact ⟨rfl, by decide⟩

/-- C19. Over the reals `getAngle` does no normalisation to `[0, 360)`: for
all inputs its result lies in `(-90, 270]`, hence never in `(270, 360)`; it is
negative for some input, `getAngle(0, 0, -10, -10) = -45`; and for coincident
points `getAngle(x, y, x, y) = 90`. -/
theorem getAngle_range :
    (∀ x1 y1 x2 y2 : ℝ, -90 < getAngle x1 y1 x2 y2 ∧ getAngle x1 y1 x2 y2 ≤ 270) ∧
    (∀ x1 y1 x2 y2 : ℝ, ¬ (270 < getAngle x1 y1 x2 y2 ∧ getAngle x1 y1 x2 y2 < 360)) ∧
    getAngle 0 0 (-10) (-10) = -45 ∧
    (∀ x y : ℝ, getAngle x y x y = 90) := by
  have hpi := Real.pi_pos
  have hrange : ∀ x1 y1 x2 y2 : ℝ,
      -90 < getAngle x1 y1 x2 y2 ∧ getAngle x1 y1 x2 y2 ≤ 270 := by
    intro x1 y1 x2 y2
    obtain ⟨h1, h2⟩ := atan2_range (y2 - y1) (x2 - x1)
    unfold getAngle
    simp only
    constructor
    · have : -180 < atan2 (y2 - y1) (x2 - x1) * 180 / Real.pi := by
        rw [lt_div_iff₀ hpi]; nlinarith
      linarith
    · have : atan2 (y2 - y1) (x2 - x1) * 180 / Real.pi ≤ 180 := by
        rw [div_le_iff₀ hpi]; nlinarith
      linarith
  refine ⟨hrange, ?_, ?_, ?_⟩
  · intro x1 y1 x2 y2 h
    have := (hrange x1 y1 x2 y2).2
    linarith [h.1]
  · unfold getAngle
    simp only [sub_zero, atan2_neg_ten_neg_ten]
    field_simp
    ring
  · intro x y
    unfold getAngle
    simp only [sub_self, atan2_zero_zero]
    simp

/-- C20 (counterexample). `10^21` is a non-negative integer Number whose
`String` is `1e+21`: `getDisplayLevel()` of an aircraft with that level is
`1e+21`, 5 characters and not the 22 digits of the level, and read as a decimal
number it gives 1. -/
theorem display_of_level_1e21 :
    binary64 ((10 : ℚ) ^ 21) = 10 ^ 21 ∧
    (Aircraft.new 1700000000000 0 "UAL100" 900 300 (10 ^ 21) 25 240).getDisplayLevel
      = "1e+21" ∧
    (Aircraft.new 1700000000000 0 "UAL100" 900 300 (10 ^ 21) 25 240).getDisplayLevel.length
      = 5 ∧
    (Nat.digits 10 (10 ^ 21)).length = 22 ∧
    parseInt (Aircraft.new 1700000000000 0 "UAL100" 900 300 (10 ^ 21) 25 240).getDisplayLevel
      = some 1 := by
  have hd : (Aircraft.new 1700000000000 0 "UAL100" 900 300 (10 ^ 21) 25 240).getDisplayLevel
      = "1e+21" := by
    unfold Aircraft.getDisplayLevel Aircraft.new
    simp only [jsString_ten_pow_21]
    decide
  refine ⟨binary64_pow_ten 21 (by norm_num), hd, by rw [hd]; decide, ?_, ?_⟩
  · have hne : (10 : Nat) ^ 21 ≠ 0 := by positivity
    have hlog : Nat.log 10 (10 ^ 21) = 21 := Nat.log_pow (by norm_num) 21
    have h := Nat.digits_len 10 (10 ^ 21) (by norm_num) hne
    rw [h, hlog]
  · rw [hd]
    have hp : parseIntParts "1e+21" = some (1, 1) := by decide
    rw [parseInt_of_parts _ 1 1 hp (by norm_num)]
    rfl

/-- C20 (amended). For every non-negative integer `n` below `10^21` that is a
Number (every integer up to `2^53` is one): `getDisplayLevel()` of an aircraft
of level `n` reads back, as a decimal number, to `n`, and its length is the
larger of 3 and the number of decimal digits of `n`; `getDisplaySpeed()` of an
aircraft of speed `n` reads back to `n` and its length is the larger of 2 and
the number of digits. -/
theorem display_formatters_keep_value (a : Aircraft) (n : Nat)
    (hnum : binary64 (n : ℚ) = n) (hlt : n < 10 ^ 21) :
    (a.level = (n : Int) →
      parseInt a.getDisplayLevel = some (n : Int) ∧
      a.getDisplayLevel.length = max 3 (if n = 0 then 1 else (Nat.digits 10 n).length)) ∧
    (a.speed = (n : Int) →
      parseInt a.getDisplaySpeed = some (n : Int) ∧
      a.getDisplaySpeed.length = max 2 (if n = 0 then 1 else (Nat.digits 10 n).length)) := by
  obtain ⟨v, hv, hb, hlen⟩ := jsString_of_number n hnum hlt
  have key : ∀ k : Nat,
      parseInt (padStart (jsString (n : Int)) k "0") = some (n : Int) ∧
      (padStart (jsString (n : Int)) k "0").length =
        max k (if n = 0 then 1 else (Nat.digits 10 n).length) := by
    intro k
    rw [padStart_zero, hv]
    constructor
    · have hparts := parseIntParts_of_digits
        (List.replicate (k - (String.mk (decimalChars v)).length) '0' ++ decimalChars v)
        (by simp [decimalChars_ne_nil])
        (by
          intro c hc
          rcases List.mem_append.mp hc with hc | hc
          · rw [List.eq_of_mem_replicate hc]; decide
          · exact decimalChars_all_digits v c hc)
      rw [decimalValue_zeros_append, decimalValue_decimalChars] at hparts
      unfold parseInt
      rw [show (String.mk (decimalChars v)).data = decimalChars v from rfl, hparts,
        Option.map_some', hb, Int.floor_natCast]
      simp
    · show (List.replicate (k - (decimalChars v).length) '0' ++ decimalChars v).length = _
      rw [List.length_append, List.length_replicate, hlen]
      omega
  constructor
  · intro h
    unfold Aircraft.getDisplayLevel
    rw [h]
    exact key 3
  · intro h
    unfold Aircraft.getDisplaySpeed
    rw [h]
    exact key 2

theorem display_formatters_keep_value_witness :
    binary64 (((7 : Nat) : ℚ)) = ((7 : Nat) : ℚ) ∧ 7 < 10 ^ 21 ∧
    (Aircraft.new 1700000000000 0 "UAL100" 900 300 7 25 240).level = ((7 : Nat) : Int) ∧
    parseInt (Aircraft.new 1700000000000 0 "UAL100" 900 300 7 25 240).getDisplayLevel
      = some ((7 : Nat) : Int) ∧
    (Aircraft.new 1700000000000 0 "UAL100" 900 300 7 25 240).getDisplayLevel.length
      = max 3 (if 7 = 0 then 1 else (Nat.digits 10 7).length) :=
  ⟨binary64_natCast 7 (by norm_num), by norm_num, rfl,
    (display_formatters_keep_value
      (Aircraft.new 1700000000000 0 "UAL100" 900 300 7 25 240) 7
      (binary64_natCast 7 (by norm_num)) (by norm_num)).1 rfl⟩

end RPS
